import Mathlib

/-!
Verification of the prom-convert metrics scraper and normalizer.

The development shallowly embeds the Rust sources:
  * `src/driver/src/parse.rs` — the exposition-format parser built on a pest
    grammar (`prometheus.pest`, whose text is not part of the sources; the
    lexical layer below is modelled from the specification's grammar),
  * `src/driver/src/fetch.rs` / `src/fetch/src/lib.rs` — the HTTP fetcher's
    timestamp and body handling at the response boundary,
  * `src/driver/src/lib.rs` — the writer loop and the instance-label default,
  * `src/prom2sqlite/src/table.rs` — the SQL normalizer (`TableWriter`).

Stateful Rust code becomes explicit state passing; `rusqlite` rows become
lists of rows appended in insertion order; panics (`unwrap` on `None`)
become `Option.none` results; fallible SQL statements become `Except`.
-/

namespace PromConvert

/-! ### Data model (from `src/driver/src/parse.rs`)

`SampleType`, `Sample` and `MetricFamily` mirror the Rust structures.  The
borrowed `&str` slices are represented by owned `String`s; this is the
semantic content the exporter observes. -/

inductive SampleType where
  | counter
  | gauge
  | histogram
  | summary
  | untyped
deriving DecidableEq

structure Sample where
  var : String
  labels : List (String × String)
  value : String
deriving DecidableEq

structure MetricFamily where
  var : Option String := none
  help : Option String := none
  type : SampleType := SampleType.untyped
  samples : List Sample := []
deriving DecidableEq

/-! ### Lexical layer

/-- Modelled from the spec: the pest grammar `prometheus.pest` is referenced
by `parse.rs` (`#[grammar = "./prometheus.pest"]`) but its text is not among
the sources.  The token classes below follow §4.1 of the specification:
`name = [a-zA-Z_:][a-zA-Z0-9_:]*`, label name without `:`, values are float
literals or `NaN`/`+Inf`/`-Inf`, quoted label values use the escapes
`\\`, `\"`, `\n`, and a final newline is required. -/ -/

def isNameStartChar (c : Char) : Bool :=
  c.isAlpha || c = '_' || c = ':'

def isNameChar (c : Char) : Bool :=
  isNameStartChar c || c.isDigit

def isLabelStartChar (c : Char) : Bool :=
  c.isAlpha || c = '_'

def isLabelChar (c : Char) : Bool :=
  isLabelStartChar c || c.isDigit

def isSpaceChar (c : Char) : Bool :=
  c = ' ' || c = '\t'

/-- Lex a metric name: one leading name-start character, then name characters. -/
def lexName (cs : List Char) : Option (String × List Char) :=
  match cs with
  | [] => none
  | c :: _ =>
    if isNameStartChar c then
      some (String.mk (cs.takeWhile isNameChar), cs.dropWhile isNameChar)
    else
      none

/-- Lex a label name (no colon allowed). -/
def lexLabelName (cs : List Char) : Option (String × List Char) :=
  match cs with
  | [] => none
  | c :: _ =>
    if isLabelStartChar c then
      some (String.mk (cs.takeWhile isLabelChar), cs.dropWhile isLabelChar)
    else
      none

/-- Consume one or more spaces/tabs. -/
def skipSpaces1 (cs : List Char) : Option (List Char) :=
  match cs with
  | c :: rest =>
    if isSpaceChar c then some (rest.dropWhile isSpaceChar) else none
  | [] => none

/-- Content of a quoted label value, after the opening quote.  Escapes keep
the backslash (the Rust code stores the raw pest token, unescaped).  Returns
the raw content characters and the remaining input after the closing quote;
`none` on an unterminated string. -/
def lexQuotedAux : List Char → Option (List Char × List Char)
  | [] => none
  | '"' :: rest => some ([], rest)
  | '\\' :: c :: rest =>
    match lexQuotedAux rest with
    | some (v, r) => some ('\\' :: c :: v, r)
    | none => none
  | c :: rest =>
    match lexQuotedAux rest with
    | some (v, r) => some (c :: v, r)
    | none => none

/-- One `name="value"` pair. -/
def lexOneLabel (cs : List Char) : Option ((String × String) × List Char) :=
  match lexLabelName cs with
  | none => none
  | some (n, r1) =>
    match r1 with
    | '=' :: '"' :: r2 =>
      match lexQuotedAux r2 with
      | some (v, r3) => some ((n, String.mk v), r3)
      | none => none
    | _ => none

/-- Comma-separated label pairs after the opening brace, up to the closing
brace; a trailing comma is tolerated.  Fuel-driven recursion on the input
length. -/
def lexLabelsAux (fuel : Nat) (cs : List Char) :
    Option (List (String × String) × List Char) :=
  match fuel with
  | 0 => none
  | fuel + 1 =>
    match cs with
    | '}' :: rest => some ([], rest)
    | _ =>
      match lexOneLabel cs with
      | none => none
      | some (p, r1) =>
        match r1 with
        | ',' :: r2 =>
          match lexLabelsAux fuel r2 with
          | some (ps, r3) => some (p :: ps, r3)
          | none => none
        | '}' :: r2 => some ([p], r2)
        | _ => none

def lexLabelBlock (cs : List Char) : Option (List (String × String) × List Char) :=
  lexLabelsAux (cs.length + 1) cs

def isDigitChar (c : Char) : Bool := c.isDigit

/-- Lowercase an ASCII letter (for Rust's case-insensitive `inf`/`nan`). -/
def lowerOf (c : Char) : Char :=
  if c.toNat ≥ 65 && c.toNat ≤ 90 then Char.ofNat (c.toNat + 32) else c

def matchCaseless : List Char → List Char → Bool
  | [], [] => true
  | a :: as_, b :: bs => (lowerOf a = b) && matchCaseless as_ bs
  | _, _ => false

/-- Decimal float body: `digits [. digits] [exp]` or `. digits [exp]`. -/
def isFloatBody (cs : List Char) : Bool :=
  let mantissa := cs.takeWhile isDigitChar
  let rest := cs.dropWhile isDigitChar
  let (okMantissa, afterMantissa) :=
    match rest with
    | '.' :: r =>
      let frac := r.takeWhile isDigitChar
      (!mantissa.isEmpty || !frac.isEmpty, r.dropWhile isDigitChar)
    | _ => (!mantissa.isEmpty, rest)
  if !okMantissa then false
  else
    match afterMantissa with
    | [] => true
    | e :: r =>
      if e = 'e' || e = 'E' then
        let r2 := match r with
          | '+' :: t => t
          | '-' :: t => t
          | t => t
        !(r2.takeWhile isDigitChar).isEmpty && (r2.dropWhile isDigitChar).isEmpty
      else false

/-- Exposition value token per the spec: a float literal, `NaN`, `+Inf`,
`-Inf` (case-sensitive). -/
def isValueToken (cs : List Char) : Bool :=
  cs = ['N', 'a', 'N'] || cs = ['+', 'I', 'n', 'f'] || cs = ['-', 'I', 'n', 'f'] ||
    (match cs with
     | '+' :: r => isFloatBody r
     | '-' :: r => isFloatBody r
     | r => isFloatBody r)

/-- Optional integer timestamp token. -/
def isTimestampToken (cs : List Char) : Bool :=
  match cs with
  | '-' :: r => !r.isEmpty && r.all isDigitChar
  | '+' :: r => !r.isEmpty && r.all isDigitChar
  | r => !r.isEmpty && r.all isDigitChar

/-- A lexed line of the exposition, corresponding to the pest pairs that
`parse.rs` consumes: a HELP descriptor, a TYPE descriptor, or a sample
(`Rule::metric`).  For a sample, `labels = none` when the wire carried no
`{...}` block at all — `parse.rs` checks
`descriptor.peek().unwrap().as_rule() == Rule::labels` and skips
`parse_labels` entirely in that case. -/
inductive RawItem where
  | descHelp (name : String) (text : String)
  | descType (name : String) (t : SampleType)
  | sample (name : String) (labels : Option (List (String × String))) (value : String)
deriving DecidableEq

def RawItem.itemName : RawItem → String
  | .descHelp n _ => n
  | .descType n _ => n
  | .sample n _ _ => n

def typeKeyword (s : String) : Option SampleType :=
  if s = "counter" then some SampleType.counter
  else if s = "gauge" then some SampleType.gauge
  else if s = "histogram" then some SampleType.histogram
  else if s = "summary" then some SampleType.summary
  else if s = "untyped" then some SampleType.untyped
  else none

/-- Tail of a sample line after the metric name: optional label block, one
or more spaces, a value token, an optional timestamp, optional trailing
spaces. -/
def lexSampleTail (name : String) (cs : List Char) : Option RawItem :=
  let (labels, r1) :=
    match cs with
    | '{' :: r =>
      match lexLabelBlock r with
      | some (ls, r2) => (some (some ls), r2)
      | none => (none, cs)
    | _ => (some none, cs)
  match labels with
  | none => none
  | some labelsOpt =>
    match skipSpaces1 r1 with
    | none => none
    | some r2 =>
      let valueChars := r2.takeWhile (fun c => !isSpaceChar c)
      let r3 := r2.dropWhile (fun c => !isSpaceChar c)
      if !isValueToken valueChars then none
      else
        let r4 := r3.dropWhile isSpaceChar
        if r4.isEmpty then
          some (RawItem.sample name labelsOpt (String.mk valueChars))
        else
          let tsChars := r4.takeWhile (fun c => !isSpaceChar c)
          let r5 := r4.dropWhile (fun c => !isSpaceChar c)
          if isTimestampToken tsChars && (r5.dropWhile isSpaceChar).isEmpty then
            some (RawItem.sample name labelsOpt (String.mk valueChars))
          else none

/-- Lex one line.  `none` is a lexical error for the whole scrape;
`some none` is an ignored line (blank or plain comment). -/
def lexLine (cs : List Char) : Option (Option RawItem) :=
  if cs.all isSpaceChar then some none
  else
    match cs with
    | '#' :: r =>
      match r with
      | ' ' :: 'H' :: 'E' :: 'L' :: 'P' :: ' ' :: r2 =>
        (match lexName r2 with
         | some (n, r3) =>
           (match r3 with
            | [] => some (some (RawItem.descHelp n ""))
            | ' ' :: r4 => some (some (RawItem.descHelp n (String.mk r4)))
            | _ => none)
         | none => none)
      | ' ' :: 'T' :: 'Y' :: 'P' :: 'E' :: ' ' :: r2 =>
        (match lexName r2 with
         | some (n, r3) =>
           (match r3 with
            | ' ' :: r4 =>
              (match typeKeyword (String.mk (r4.takeWhile (fun c => !isSpaceChar c))) with
               | some t =>
                 if ((r4.dropWhile (fun c => !isSpaceChar c)).dropWhile isSpaceChar).isEmpty then
                   some (some (RawItem.descType n t))
                 else none
               | none => none)
            | _ => none)
         | none => none)
      | _ => some none
    | _ =>
      match lexName cs with
      | some (n, r1) =>
        (match lexSampleTail n r1 with
         | some item => some (some item)
         | none => none)
      | none => none

/-- Split into lines at `'\n'`. -/
def splitLinesAux : List Char → List (List Char)
  | [] => [[]]
  | '\n' :: rest => [] :: splitLinesAux rest
  | c :: rest =>
    match splitLinesAux rest with
    | l :: ls => (c :: l) :: ls
    | [] => [[c]]

/-- Modelled from the spec: the lexical front end standing in for
`PrometheusParser::parse` from the missing `prometheus.pest`.  The input
must end with a newline; every line must lex; blank lines and plain `#`
comments are dropped.  `none` models the pest `Err` branch of `parse`. -/
def lexExposition (input : String) : Option (List RawItem) :=
  match (splitLinesAux input.data).getLast? with
  | some [] =>
    (splitLinesAux input.data).dropLast.foldr
      (fun line acc =>
        match lexLine line, acc with
        | some (some item), some items => some (item :: items)
        | some none, some items => some items
        | _, _ => none)
      (some [])
  | _ => none

/-! ### Family grouping

Modelled from the spec (§4.1 family aggregation): a HELP or TYPE line
establishes the current family; samples whose name does not match the
current family's name, directly or via the histogram/summary suffixes
`_bucket`, `_count`, `_sum`, close the current family and start a new
one.  In the Rust pipeline this grouping into `Rule::metricfamily` pairs
is performed by the missing pest grammar. -/

def dropSuffixChars (suf : List Char) (cs : List Char) : List Char :=
  if (cs.reverse.take suf.length) = suf.reverse then
    (cs.reverse.drop suf.length).reverse
  else cs

def stripSampleSuffix (n : String) : String :=
  let cs := n.data
  let b := dropSuffixChars "_bucket".data cs
  if b ≠ cs then String.mk b
  else
    let c := dropSuffixChars "_count".data cs
    if c ≠ cs then String.mk c
    else String.mk (dropSuffixChars "_sum".data cs)

def groupKeyOf : RawItem → String
  | .descHelp n _ => n
  | .descType n _ => n
  | .sample n _ _ => stripSampleSuffix n

def sameFamily (cur : String) : RawItem → Bool
  | .descHelp n _ => n = cur
  | .descType n _ => n = cur
  | .sample n _ _ => n = cur || stripSampleSuffix n = cur

def groupItemsAux : Option (String × List RawItem) → List RawItem → List (List RawItem)
  | none, [] => []
  | some (_, rev), [] => [rev.reverse]
  | none, it :: rest => groupItemsAux (some (groupKeyOf it, [it])) rest
  | some (cur, rev), it :: rest =>
    if sameFamily cur it then groupItemsAux (some (cur, it :: rev)) rest
    else rev.reverse :: groupItemsAux (some (groupKeyOf it, [it])) rest

def groupItems (items : List RawItem) : List (List RawItem) :=
  groupItemsAux none items

/-! ### `parse.rs` proper (from the source)

These definitions are direct transcriptions of
`parse_labels`, `MetricFamily::parse_sample`,
`MetricFamily::parse_metric_descriptor`, `MetricFamily::parse`,
`parse_exposition` and `parse` from `src/driver/src/parse.rs`. -/

/-- `parse_labels` (parse.rs:152-175): start from an empty vector, push
`("instance", instance)` if configured, then `("job", job)`, then extend
with the wire labels in wire order.  Only called when the sample carries a
label block. -/
def parse_labels (instanceOpt jobOpt : Option String) (wire : List (String × String)) :
    List (String × String) :=
  let labels : List (String × String) := []
  let labels := match instanceOpt with
    | some i => labels ++ [("instance", i)]
    | none => labels
  let labels := match jobOpt with
    | some j => labels ++ [("job", j)]
    | none => labels
  labels ++ wire

/-- `MetricFamily::parse_sample` (parse.rs:129-149): labels are produced by
`parse_labels` only when the pest pair carries a `Rule::labels` child;
otherwise the sample gets `Vec::new()`. -/
def parse_sample (instanceOpt jobOpt : Option String) (name : String)
    (labelsOpt : Option (List (String × String))) (value : String) : Option Sample :=
  some
    { var := name
      labels :=
        match labelsOpt with
        | some wire => parse_labels instanceOpt jobOpt wire
        | none => []
      value := value }

/-- `MetricFamily::parse_metric_descriptor` (parse.rs:83-127).  Returns
`none` for the `false` branch (name mismatch with the family's declared
name). -/
def parse_metric_descriptor (fam : MetricFamily) (it : RawItem) : Option MetricFamily :=
  match it with
  | .sample _ _ _ => none
  | .descHelp n text =>
    (match fam.var with
     | none => some { fam with var := some n, help := some text }
     | some v =>
       if n = v then some { fam with help := some text } else none)
  | .descType n t =>
    (match fam.var with
     | none => some { fam with var := some n, type := t }
     | some v =>
       if n = v then some { fam with type := t } else none)

/-- The child loop of `MetricFamily::parse` (parse.rs:54-81): a descriptor
arriving once `samples` is non-empty aborts the family (`error!("Metric
Descriptor after samples"); return None`). -/
def parseFamilyItems (instanceOpt jobOpt : Option String) :
    MetricFamily → List RawItem → Option MetricFamily
  | fam, [] => some fam
  | fam, it :: rest =>
    match it with
    | .sample n ls v =>
      (match parse_sample instanceOpt jobOpt n ls v with
       | some s => parseFamilyItems instanceOpt jobOpt { fam with samples := fam.samples ++ [s] } rest
       | none => none)
    | _ =>
      if fam.samples.isEmpty then
        match parse_metric_descriptor fam it with
        | some fam2 => parseFamilyItems instanceOpt jobOpt fam2 rest
        | none => none
      else none

def MetricFamily.parse (instanceOpt jobOpt : Option String) (items : List RawItem) :
    Option MetricFamily :=
  parseFamilyItems instanceOpt jobOpt {} items

/-- `parse_exposition` (parse.rs:177-190): `flat_map` over the family pairs —
a family whose `MetricFamily::parse` returns `None` is dropped from the
output; the others are kept. -/
def parse_exposition (instanceOpt jobOpt : Option String) (groups : List (List RawItem)) :
    List MetricFamily :=
  groups.filterMap (MetricFamily.parse instanceOpt jobOpt)

/-- `parse` (parse.rs:192-210): `None` exactly on a pest parse error. -/
def parse (instanceOpt jobOpt : Option String) (input : String) :
    Option (List MetricFamily) :=
  match lexExposition input with
  | some items => some (parse_exposition instanceOpt jobOpt (groupItems items))
  | none => none

/-! ### Fetcher (from `src/driver/src/fetch.rs` and `src/fetch/src/lib.rs`)

The two `fetch` functions share the timestamp logic verbatim
(fetch.rs:53-60 / lib.rs:227-234).  The network exchange is the input of
the model: the completed response is given by its status code, its `Date`
header as seen through `chrono::DateTime::parse_from_rfc2822`
(`none` = header absent, `some none` = header present but chrono fails —
including the non-ASCII `to_str` failure, `some (some ms)` = header parses
to `ms` milliseconds), the wall clock `Utc::now().timestamp_millis()` at
that point, and the body.  A `none` result models the panic of the two
`unwrap()` calls on the header branch. -/

/-- Rust's `as u64` cast of the `i64` millisecond timestamp. -/
def castU64 (i : Int) : Nat :=
  (i % (2 : Int) ^ 64).toNat

/-- Lines 53-60 of `src/driver/src/fetch.rs`: `Some(date)` unwraps the
chrono parse (panicking on failure); `None` falls back to the wall clock. -/
def fetchTimestamp (now : Int) (dateHeader : Option (Option Int)) : Option Int :=
  match dateHeader with
  | some (some ms) => some ms
  | some none => none
  | none => some now

/-- The value `fetch` returns for a completed exchange: the status code is
only debug-logged by the source, never examined. -/
def fetch (status : Nat) (dateHeader : Option (Option Int)) (now : Int)
    (body : String) : Option (Nat × String) :=
  match status with
  | _ =>
    match fetchTimestamp now dateHeader with
    | some ts => some (castU64 ts, body)
    | none => none

/-! ### Writer loop (from `src/driver/src/lib.rs`)

`writer_loop` (lib.rs:118-151) consumes the queue until `recv` yields
`None` (channel closed and empty), parses each entry, calls
`exporter.export` per parsed family and logs on a `false` return.  The
`Exporter` trait (lib.rs:35-37) exposes `export` only.  The model records
an event per exporter interaction; `closeCall` is the event a `close()`
finalization hook would produce — no code path emits it. -/

inductive WriterEvent where
  | exportCall (ts : Nat) (fam : MetricFamily) (ok : Bool)
  | exportFailLog
  | closeCall
deriving DecidableEq

def exportFamilies {σ : Type} (expF : σ → Nat → MetricFamily → Bool × σ) (ts : Nat) :
    σ → List MetricFamily → σ × List WriterEvent
  | s, [] => (s, [])
  | s, f :: fs =>
    let r := expF s ts f
    let evs0 :=
      if r.1 then [WriterEvent.exportCall ts f r.1]
      else [WriterEvent.exportCall ts f r.1, WriterEvent.exportFailLog]
    let rest := exportFamilies expF ts r.2 fs
    (rest.1, evs0 ++ rest.2)

def writer_loop {σ : Type} (instanceOpt jobOpt : Option String)
    (expF : σ → Nat → MetricFamily → Bool × σ) :
    σ → List (Nat × String) → σ × List WriterEvent
  | s, [] => (s, [])
  | s, (ts, body) :: rest =>
    match parse instanceOpt jobOpt body with
    | some fams =>
      let step := exportFamilies expF ts s fams
      let tail := writer_loop instanceOpt jobOpt expF step.1 rest
      (tail.1, step.2 ++ tail.2)
    | none => writer_loop instanceOpt jobOpt expF s rest

/-- A concrete exporter used by witnesses: it records the exported
`(timestamp, family)` pairs and always succeeds. -/
def recordingExporter : List (Nat × MetricFamily) → Nat → MetricFamily →
    Bool × List (Nat × MetricFamily) :=
  fun s ts f => (true, s ++ [(ts, f)])

/-! ### Instance-label default (from `src/driver/src/lib.rs` `run_async`)

Lines 157-176: in stdin mode (`target == "-"`) no URI exists; otherwise the
target parses to a URI whose authority (host[:port]) backs the default. -/

structure UriModel where
  authority : Option String
deriving DecidableEq

/-- Lines 168-175 of lib.rs: `args.instance()` wins; otherwise the target
URI's authority string, when both exist. -/
def runAsyncInstance (argsInstance : Option String) (uri : Option UriModel) :
    Option String :=
  match argsInstance with
  | some i => some i
  | none => (uri.bind UriModel.authority)

/-! ### SQL normalizer (from `src/prom2sqlite/src/table.rs`)

The SQLite database is a record of row lists, appended in insertion order;
`INSERT ... RETURNING id` ids come from per-table counters starting at 1
(the rowid discipline).  `rusqlite` statement failures are modelled only
where the schema forces them on the code's own paths: `CREATE TABLE` of an
existing table and `INSERT` into a missing table.  Duplicate-primary-key
failures of the value tables are outside the model.  The stored `REAL`
value is represented by its source text (the string whose `f64` parse
succeeded); floating-point is out of scope.  Logging: the model records
every `error!` call in `table.rs`; that file contains no `warn!` call, so
all recordable events carry the error level. -/

structure MetricRow where
  id : Nat
  name : String
  mtype : String
  help : Option String
deriving DecidableEq

structure LabelRow where
  id : Nat
  name : String
deriving DecidableEq

structure LabelValueRow where
  id : Nat
  label_id : Nat
  value : String
deriving DecidableEq

structure SeriesRow where
  id : Nat
  metric_id : Nat
deriving DecidableEq

structure LabelSetRow where
  series_id : Nat
  label_value_id : Nat
deriving DecidableEq

structure ValueRow where
  table : String
  series_id : Nat
  timestamp : Nat
  value : String
deriving DecidableEq

structure SqlState where
  metric : List MetricRow := []
  label : List LabelRow := []
  label_value : List LabelValueRow := []
  series : List SeriesRow := []
  label_set : List LabelSetRow := []
  scalarTables : List String := []
  scalarRows : List ValueRow := []
  nextMetricId : Nat := 1
  nextLabelId : Nat := 1
  nextLabelValueId : Nat := 1
  nextSeriesId : Nat := 1
deriving DecidableEq

inductive LogLevel where
  | error
  | warn
deriving DecidableEq

/-- The log macro call sites of `table.rs` (`process_metric_family` and the
rusqlite error paths).  `unableLookupSeries` corresponds to a rusqlite
failure inside `get_series_id_cached`, which the model makes total, so it
is never emitted. -/
inductive LogEvent where
  | unableLookupMetric
  | unableLookupSeries (name : String)
  | unableParseScalar (value : String)
  | unableInsertSample
deriving DecidableEq

/-- Every log site in `table.rs` is `error!`; the file has no `warn!`. -/
def LogEvent.level : LogEvent → LogLevel := fun _ => LogLevel.error

/-- `TableWriter` (table.rs:24-33).  `instance`/`job` hold interned
label-value ids as in the source; they are named `instanceLV`/`jobLV`
because `instance` is a Lean keyword. -/
structure TableWriter where
  db : SqlState := {}
  instanceLV : Option Nat := none
  jobLV : Option Nat := none
  metric_cache : List (String × Nat) := []
  label_cache : List (String × Nat) := []
  label_value_cache : List ((Nat × String) × Nat) := []
  series_cache : List ((Nat × List Nat) × Nat) := []
  log : List LogEvent := []
deriving DecidableEq

/-- The freshly opened writer (`TableWriter::open` after the DDL prelude). -/
def freshWriter : TableWriter := {}

def sampleTypeText : SampleType → String
  | .counter => "counter"
  | .gauge => "gauge"
  | .untyped => "untyped"
  | .summary => "summary"
  | .histogram => "histogram"

def SampleType.isScalar : SampleType → Bool
  | .counter | .gauge | .untyped => true
  | .summary | .histogram => false

/-- `SELECT id FROM metric WHERE name = ?1`: first matching row. -/
def selectMetricByName (db : SqlState) (n : String) : Option MetricRow :=
  db.metric.find? (fun r => r.name == n)

/-- `create_scalar` (table.rs:69-93): `CREATE TABLE` fails if the table
already exists. -/
def create_scalar (db : SqlState) (n : String) : Except Unit SqlState :=
  if db.scalarTables.contains n then Except.error ()
  else Except.ok { db with scalarTables := db.scalarTables ++ [n] }

/-- `insert_scalar` (table.rs:95-118), plain-SQLite path: `INSERT` into a
missing table fails, and so does violating the value table's
`PRIMARY KEY (series_id, timestamp)` declared by `create_scalar`
(table.rs:86) — a row with the same series id and timestamp already
present in that table. -/
def insert_scalar (db : SqlState) (n : String) (timestamp_millis : Nat)
    (series_id : Nat) (value : String) : Except Unit SqlState :=
  if db.scalarTables.contains n then
    if db.scalarRows.any (fun r => r.table == n && r.series_id == series_id &&
        r.timestamp == timestamp_millis) then
      Except.error ()
    else
      Except.ok { db with scalarRows := db.scalarRows ++
        [{ table := n, series_id := series_id, timestamp := timestamp_millis, value := value }] }
  else Except.error ()

/-- The `INSERT INTO metric` of `get_metric_id` (table.rs:129-146). -/
def insertMetric (w : TableWriter) (name : String) (ty : SampleType)
    (help : Option String) : TableWriter :=
  { w with db := { w.db with
    metric := w.db.metric ++
      [{ id := w.db.nextMetricId, name := name, mtype := sampleTypeText ty, help := help }]
    nextMetricId := w.db.nextMetricId + 1 } }

/-- The state after a successful `create_scalar`. -/
def createTableState (w : TableWriter) (n : String) : TableWriter :=
  { w with db := { w.db with scalarTables := w.db.scalarTables ++ [n] } }

/-- `get_metric_id` (table.rs:120-160), taking the already-unwrapped
`family.var`.  On a missed `SELECT`, the row is inserted and — for scalar
types — the per-metric value table is created; a failing `CREATE TABLE`
leaves the inserted row in place (no transaction) and propagates the error. -/
def get_metric_id (w : TableWriter) (name : String) (ty : SampleType)
    (help : Option String) : Except Unit Nat × TableWriter :=
  match selectMetricByName w.db name with
  | some row => (Except.ok row.id, w)
  | none =>
    let id := w.db.nextMetricId
    let w1 := insertMetric w name ty help
    if ty.isScalar then
      match create_scalar w1.db name with
      | Except.ok db2 => (Except.ok id, { w1 with db := db2 })
      | Except.error e => (Except.error e, w1)
    else
      (Except.ok id, w1)

/-- `get_metric_id_cached` (table.rs:162-170). -/
def get_metric_id_cached (w : TableWriter) (name : String) (ty : SampleType)
    (help : Option String) : Except Unit Nat × TableWriter :=
  match w.metric_cache.lookup name with
  | some id => (Except.ok id, w)
  | none =>
    match get_metric_id w name ty help with
    | (Except.ok id, w1) => (Except.ok id, { w1 with metric_cache := (name, id) :: w1.metric_cache })
    | (Except.error e, w1) => (Except.error e, w1)

/-- `get_label_id` (table.rs:172-188). -/
def get_label_id (w : TableWriter) (label : String) : Nat × TableWriter :=
  match w.db.label.find? (fun r => r.name == label) with
  | some row => (row.id, w)
  | none =>
    let id := w.db.nextLabelId
    (id, { w with db := { w.db with
      label := w.db.label ++ [{ id := id, name := label }]
      nextLabelId := id + 1 } })

/-- `get_label_id_cached` (table.rs:190-197). -/
def get_label_id_cached (w : TableWriter) (label : String) : Nat × TableWriter :=
  match w.label_cache.lookup label with
  | some id => (id, w)
  | none =>
    let r := get_label_id w label
    (r.1, { r.2 with label_cache := (label, r.1) :: r.2.label_cache })

/-- `get_label_value` (table.rs:199-215). -/
def get_label_value (w : TableWriter) (label_id : Nat) (value : String) :
    Nat × TableWriter :=
  match w.db.label_value.find? (fun r => r.label_id == label_id && r.value == value) with
  | some row => (row.id, w)
  | none =>
    let id := w.db.nextLabelValueId
    (id, { w with db := { w.db with
      label_value := w.db.label_value ++ [{ id := id, label_id := label_id, value := value }]
      nextLabelValueId := id + 1 } })

/-- `get_label_value_cached` (table.rs:217-226). -/
def get_label_value_cached (w : TableWriter) (label : String) (value : String) :
    Nat × TableWriter :=
  let r0 := get_label_id_cached w label
  match r0.2.label_value_cache.lookup (r0.1, value) with
  | some id => (id, r0.2)
  | none =>
    let r1 := get_label_value r0.2 r0.1 value
    (r1.1, { r1.2 with label_value_cache := ((r0.1, value), r1.1) :: r1.2.label_value_cache })

/-- `set_instance` (table.rs:59-62). -/
def set_instance (w : TableWriter) (v : String) : TableWriter :=
  let r := get_label_value_cached w "instance" v
  { r.2 with instanceLV := some r.1 }

/-- `set_job` (table.rs:64-67). -/
def set_job (w : TableWriter) (v : String) : TableWriter :=
  let r := get_label_value_cached w "job" v
  { r.2 with jobLV := some r.1 }

/-- One series row satisfies the INTERSECT query: it belongs to the metric
and every requested label-value id appears among its `label_set` rows. -/
def seriesMatches (db : SqlState) (metric_id : Nat) (ids : List Nat)
    (s : SeriesRow) : Bool :=
  s.metric_id == metric_id &&
    ids.all (fun lv => db.label_set.contains { series_id := s.id, label_value_id := lv })

/-- The INTERSECT existence query of `get_series_id` (table.rs:228-246).
SQLite evaluates compound INTERSECT selects through a sorted temporary
b-tree, so the first returned row is the least matching id. -/
def seriesQuery (db : SqlState) (metric_id : Nat) (ids : List Nat) : Option Nat :=
  ((db.series.filter (seriesMatches db metric_id ids)).map SeriesRow.id).min?

/-- The insertion branch of `get_series_id` (table.rs:248-263): one new
`series` row and one `label_set` row per requested label-value id. -/
def insertSeries (w : TableWriter) (metric_id : Nat) (ids : List Nat) : TableWriter :=
  { w with db := { w.db with
    series := w.db.series ++ [{ id := w.db.nextSeriesId, metric_id := metric_id }]
    label_set := w.db.label_set ++
      ids.map (fun lv => { series_id := w.db.nextSeriesId, label_value_id := lv })
    nextSeriesId := w.db.nextSeriesId + 1 } }

/-- `get_series_id` (table.rs:228-264): take the first row of the INTERSECT
query — any series whose label set is a superset of `ids` matches (the
source marks this `BUG`) — or insert a new series plus one `label_set` row
per requested id. -/
def get_series_id (w : TableWriter) (metric_id : Nat) (ids : List Nat) :
    Nat × TableWriter :=
  match seriesQuery w.db metric_id ids with
  | some sid => (sid, w)
  | none => (w.db.nextSeriesId, insertSeries w metric_id ids)

/-- The per-sample label resolution loop of `get_series_id_cached`
(table.rs:278-281), preserving sample order. -/
def resolveLabelValueIds (w : TableWriter) :
    List (String × String) → List Nat × TableWriter
  | [] => ([], w)
  | (l, v) :: rest =>
    let r := get_label_value_cached w l v
    let rs := resolveLabelValueIds r.2 rest
    (r.1 :: rs.1, rs.2)

/-- The configured prefix of every series id list (table.rs:271-277):
the interned instance id, then the interned job id, when configured. -/
def seriesPrefixIds (w : TableWriter) : List Nat :=
  (match w.instanceLV with | some i => [i] | none => []) ++
  (match w.jobLV with | some j => [j] | none => [])

/-- The cache insertion of `get_series_id_cached` (table.rs:287). -/
def cacheSeries (w : TableWriter) (key : Nat × List Nat) (sid : Nat) : TableWriter :=
  { w with series_cache := (key, sid) :: w.series_cache }

/-- `get_series_id_cached` (table.rs:266-289): the id list is the configured
instance id (if any), then the configured job id (if any), then the wire
labels' ids in sample order; the cache key is `(metric_id, ids)`. -/
def get_series_id_cached (w : TableWriter) (metric_id : Nat)
    (label_set : List (String × String)) : Nat × TableWriter :=
  let rw := resolveLabelValueIds w label_set
  let ids := seriesPrefixIds w ++ rw.1
  match rw.2.series_cache.lookup (metric_id, ids) with
  | some id => (id, rw.2)
  | none =>
    let rs := get_series_id rw.2 metric_id ids
    (rs.1, cacheSeries rs.2 (metric_id, ids) rs.1)

/-- Model of Rust's `str::parse::<f64>` (`sample.value.parse::<f64>()`):
an optional sign, then case-insensitive `inf`/`infinity`/`nan` or a decimal
float literal. -/
def parsesAsF64 (s : String) : Bool :=
  let body := match s.data with
    | '+' :: r => r
    | '-' :: r => r
    | r => r
  matchCaseless body "inf".data || matchCaseless body "infinity".data ||
    matchCaseless body "nan".data || isFloatBody body

/-- The sample loop of `process_metric_family` (table.rs:300-337): scalar
families parse the value as `f64` and insert; a parse or insert failure
logs and returns `false` with the rows inserted so far kept; summary and
histogram samples are accepted without storage (`// TODO`). -/
def processSamples (w : TableWriter) (name : String) (ty : SampleType) (ts : Nat)
    (metric_id : Nat) : List Sample → Bool × TableWriter
  | [] => (true, w)
  | smp :: rest =>
    let rs := get_series_id_cached w metric_id smp.labels
    if ty.isScalar then
      if parsesAsF64 smp.value then
        match insert_scalar rs.2.db name ts rs.1 smp.value with
        | Except.ok db2 => processSamples { rs.2 with db := db2 } name ty ts metric_id rest
        | Except.error _ =>
          (false, { rs.2 with log := rs.2.log ++ [LogEvent.unableInsertSample] })
      else
        (false, { rs.2 with log := rs.2.log ++ [LogEvent.unableParseScalar smp.value] })
    else
      processSamples rs.2 name ty ts metric_id rest

/-- `process_metric_family` (table.rs:291-339).  `none` models the panic of
`family.var.unwrap()` on a family that never saw a descriptor. -/
def process_metric_family (w : TableWriter) (timestamp_millis : Nat)
    (family : MetricFamily) : Option (Bool × TableWriter) :=
  match family.var with
  | none => none
  | some name =>
    match get_metric_id_cached w name family.type family.help with
    | (Except.error _, w1) =>
      some (false, { w1 with log := w1.log ++ [LogEvent.unableLookupMetric] })
    | (Except.ok metric_id, w1) =>
      some (processSamples w1 name family.type timestamp_millis metric_id family.samples)

/-- One external operation on the normalizer: exporting one family of one
scrape, or a process restart (caches are process-lifetime; the database
persists; the configured instance/job ids are unchanged because re-running
`set_instance`/`set_job` on the persisted rows re-interns the same ids). -/
inductive Op where
  | scrape (ts : Nat) (family : MetricFamily)
  | restart
deriving DecidableEq

def applyOp (w : TableWriter) : Op → TableWriter
  | .scrape ts f =>
    (match process_metric_family w ts f with
     | some r => r.2
     | none => w)
  | .restart =>
    { w with metric_cache := [], label_cache := [], label_value_cache := [],
             series_cache := [] }

def runOps (w : TableWriter) (ops : List Op) : TableWriter :=
  ops.foldl applyOp w

/-! ### Specification apparatus for the normalizer theorems -/

/-- The database's answer for one interned label value: the `label` row by
name, then the `label_value` row by `(label_id, value)`. -/
def lvResolve (db : SqlState) (l v : String) : Option Nat :=
  match db.label.find? (fun r => r.name == l) with
  | some lr =>
    (db.label_value.find? (fun r => r.label_id == lr.id && r.value == v)).map
      LabelValueRow.id
  | none => none

def lvResolveList (db : SqlState) : List (String × String) → Option (List Nat)
  | [] => some []
  | (l, v) :: rest =>
    match lvResolve db l v, lvResolveList db rest with
    | some i, some ids => some (i :: ids)
    | _, _ => none

/-- The series id the database assigns to `(metric_id, label set)` in a
given writer state, uninfluenced by caches. -/
def seriesAnswer (w : TableWriter) (metric_id : Nat)
    (ls : List (String × String)) : Option Nat :=
  match lvResolveList w.db ls with
  | some wireIds => seriesQuery w.db metric_id (seriesPrefixIds w ++ wireIds)
  | none => none

/-- Append-only growth of the database across writer operations; new
`series` and `label_set` rows carry ids at or above the older state's
`nextSeriesId`. -/
structure DbExtends (db db' : SqlState) : Prop where
  metric_ext : ∃ t, db'.metric = db.metric ++ t
  label_ext : ∃ t, db'.label = db.label ++ t
  label_value_ext : ∃ t, db'.label_value = db.label_value ++ t
  series_ext : ∃ t, db'.series = db.series ++ t ∧ ∀ s ∈ t, db.nextSeriesId ≤ s.id
  label_set_ext : ∃ t, db'.label_set = db.label_set ++ t ∧
    ∀ p ∈ t, db.nextSeriesId ≤ p.series_id
  tables_ext : ∃ t, db'.scalarTables = db.scalarTables ++ t
  rows_ext : ∃ t, db'.scalarRows = db.scalarRows ++ t
  nextSeries_le : db.nextSeriesId ≤ db'.nextSeriesId

/-- Fields untouched by the label/series interning helpers: the metric
table and cache, the value tables and their rows, the log, and the
configured instance/job ids. -/
def framePreserved (w w' : TableWriter) : Prop :=
  w'.db.metric = w.db.metric ∧ w'.metric_cache = w.metric_cache ∧
  w'.db.scalarTables = w.db.scalarTables ∧ w'.db.scalarRows = w.db.scalarRows ∧
  w'.log = w.log ∧ w'.instanceLV = w.instanceLV ∧ w'.jobLV = w.jobLV

/-- The state invariant of `TableWriter`, established by `open` (all empty)
and preserved by every operation: metric names are unique, each cache
entry agrees with what the database lookup returns, series ids stay below
the id counter, and each cached series id is the database's answer for its
key. -/
structure WriterInv (w : TableWriter) : Prop where
  metric_nodup : w.db.metric.Pairwise (fun a b => a.name ≠ b.name)
  metric_cache_ok : ∀ p ∈ w.metric_cache,
    ∃ r, selectMetricByName w.db p.1 = some r ∧ r.id = p.2
  tables_have_rows : ∀ n ∈ w.db.scalarTables, ∃ r, r ∈ w.db.metric ∧ r.name = n
  label_cache_ok : ∀ p ∈ w.label_cache,
    w.db.label.find? (fun r => r.name == p.1) = some { id := p.2, name := p.1 }
  lv_cache_ok : ∀ p ∈ w.label_value_cache,
    w.db.label_value.find? (fun r => r.label_id == p.1.1 && r.value == p.1.2) =
      some { id := p.2, label_id := p.1.1, value := p.1.2 }
  series_lt : ∀ s ∈ w.db.series, s.id < w.db.nextSeriesId
  label_set_lt : ∀ p ∈ w.db.label_set, p.series_id < w.db.nextSeriesId
  series_cache_ok : ∀ p ∈ w.series_cache, seriesQuery w.db p.1.1 p.1.2 = some p.2

/-- What every normalizer operation guarantees from an invariant state:
the invariant still holds, the database only grew, and the configured
instance/job ids are untouched. -/
structure StepOk (w w' : TableWriter) : Prop where
  inv : WriterInv w'
  ext : DbExtends w.db w'.db
  inst_eq : w'.instanceLV = w.instanceLV
  job_eq : w'.jobLV = w.jobLV

/-- Concrete one-sample families used by closed instances of the
normalizer theorems. -/
def famCounterA : MetricFamily :=
  { var := some "a", help := none, type := SampleType.counter,
    samples := [{ var := "a", labels := [], value := "1" }] }

def famGaugeA : MetricFamily :=
  { var := some "a", help := none, type := SampleType.gauge,
    samples := [{ var := "a", labels := [], value := "2" }] }

def famCounterB : MetricFamily :=
  { var := some "b", help := none, type := SampleType.counter,
    samples := [{ var := "b", labels := [], value := "0" }] }

def famBadB : MetricFamily :=
  { var := some "b", help := none, type := SampleType.gauge,
    samples := [{ var := "b", labels := [], value := "1" },
                { var := "b", labels := [], value := "abc" },
                { var := "b", labels := [], value := "3" }] }

/-! ## Theorems -/

/-! ### Parser helper lemmas -/

theorem parse_metric_descriptor_samples {fam fam2 : MetricFamily} {it : RawItem}
    (h : parse_metric_descriptor fam it = some fam2) : fam2.samples = fam.samples := by
  cases it with
  | sample n ls v => simp [parse_metric_descriptor] at h
  | descHelp n text =>
    unfold parse_metric_descriptor at h
    rcases hv : fam.var with _ | v <;> rw [hv] at h
    · cases h; rfl
    · by_cases hn : n = v <;> simp [hn] at h
      cases h; rfl
  | descType n t =>
    unfold parse_metric_descriptor at h
    rcases hv : fam.var with _ | v <;> rw [hv] at h
    · cases h; rfl
    · by_cases hn : n = v <;> simp [hn] at h
      cases h; rfl

theorem parseFamilyItems_sample_src (i j : Option String) :
    ∀ (items : List RawItem) (fam fam' : MetricFamily),
      parseFamilyItems i j fam items = some fam' →
      ∀ s ∈ fam'.samples, s ∈ fam.samples ∨ ∃ n ls v, parse_sample i j n ls v = some s := by
  intro items
  induction items with
  | nil =>
    intro fam fam' h s hs
    simp [parseFamilyItems] at h
    exact Or.inl (h ▸ hs)
  | cons it rest ih =>
    intro fam fam' h s hs
    cases it with
    | sample n ls v =>
      simp only [parseFamilyItems, parse_sample] at h
      rcases ih _ _ h s hs with hmem | hsrc
      · rcases List.mem_append.mp hmem with hold | hnew
        · exact Or.inl hold
        · refine Or.inr ⟨n, ls, v, ?_⟩
          simp at hnew
          rw [hnew]
          rfl
      · exact Or.inr hsrc
    | descHelp n text =>
      simp only [parseFamilyItems] at h
      by_cases hemp : fam.samples.isEmpty
      · rw [if_pos hemp] at h
        rcases hd : parse_metric_descriptor fam (RawItem.descHelp n text) with _ | fam2 <;>
          rw [hd] at h
        · exact absurd h (by simp)
        · rcases ih _ _ h s hs with hmem | hsrc
          · exact Or.inl (parse_metric_descriptor_samples hd ▸ hmem)
          · exact Or.inr hsrc
      · rw [if_neg hemp] at h
        exact absurd h (by simp)
    | descType n t =>
      simp only [parseFamilyItems] at h
      by_cases hemp : fam.samples.isEmpty
      · rw [if_pos hemp] at h
        rcases hd : parse_metric_descriptor fam (RawItem.descType n t) with _ | fam2 <;>
          rw [hd] at h
        · exact absurd h (by simp)
        · rcases ih _ _ h s hs with hmem | hsrc
          · exact Or.inl (parse_metric_descriptor_samples hd ▸ hmem)
          · exact Or.inr hsrc
      · rw [if_neg hemp] at h
        exact absurd h (by simp)

theorem parse_sample_labels_shape {i j : Option String} {n : String}
    {ls : Option (List (String × String))} {v : String} {s : Sample}
    (h : parse_sample i j n ls v = some s) :
    s.labels = [] ∨ ∃ wire, s.labels = parse_labels i j wire := by
  cases ls with
  | none =>
    simp only [parse_sample, Option.some.injEq] at h
    rw [← h]
    exact Or.inl rfl
  | some wire =>
    simp only [parse_sample, Option.some.injEq] at h
    rw [← h]
    exact Or.inr ⟨wire, rfl⟩

theorem parse_mem_labels_shape {i j : Option String} {input : String}
    {fams : List MetricFamily} (h : parse i j input = some fams) :
    ∀ fam ∈ fams, ∀ s ∈ fam.samples,
      s.labels = [] ∨ ∃ wire, s.labels = parse_labels i j wire := by
  intro fam hfam s hs
  unfold parse at h
  rcases hlex : lexExposition input with _ | items <;> rw [hlex] at h
  · exact absurd h (by simp)
  · have hfams : fams = parse_exposition i j (groupItems items) := by
      simpa using h.symm
    subst hfams
    obtain ⟨g, _, hg⟩ := List.mem_filterMap.mp hfam
    rcases parseFamilyItems_sample_src i j g {} fam hg s hs with habs | hsrc
    · exact absurd habs (by simp)
    · obtain ⟨n, ls, v, hps⟩ := hsrc
      exact parse_sample_labels_shape hps

theorem parse_labels_both (I J : String) (wire : List (String × String)) :
    parse_labels (some I) (some J) wire = ("instance", I) :: ("job", J) :: wire := rfl

theorem parse_labels_instance_only (I : String) (wire : List (String × String)) :
    parse_labels (some I) none wire = ("instance", I) :: wire := rfl

/-! ### C1 — error handling of `parse` -/

/-- C1 (counterexample): on the input `"x 1\n# HELP x oops\ny 2\n"` the
family of `x` contains a HELP descriptor after a sample — a structural
error — yet `parse` does not return a parse error for the whole scrape: it
returns a partial family list holding the family of `y`, which the writer
would go on to export. -/
theorem parse_structural_error_partial_list :
    parse none none "x 1\n# HELP x oops\ny 2\n" =
      some [{ var := none, help := none, type := SampleType.untyped,
              samples := [{ var := "y", labels := [], value := "2" }] }] := by
  decide

/-- C1 (amended): `parse` returns an error for the whole scrape exactly
when the input fails lexically (the pest `Err` branch); no partial list is
returned in that case.  A structural error inside one family — such as a
HELP/TYPE descriptor after samples of its family — does not fail the
scrape: `parse_exposition` drops exactly that family and keeps the
remaining families, which are then exported. -/
theorem parse_error_iff_lexical :
    (∀ i j input, parse i j input = none ↔ lexExposition input = none) ∧
    (∀ i j g gs₁ gs₂, MetricFamily.parse i j g = none →
      parse_exposition i j (gs₁ ++ g :: gs₂) = parse_exposition i j (gs₁ ++ gs₂)) := by
  constructor
  · intro i j input
    unfold parse
    rcases h : lexExposition input with _ | items <;> simp
  · intro i j g gs₁ gs₂ hg
    unfold parse_exposition
    simp [List.filterMap_append, List.filterMap_cons, hg]

/-- C1 (witness): the lexical error `"1up 4\n"` makes the whole scrape
fail, and a family aborted by a descriptor-after-samples error is dropped
while its neighbour is kept. -/
theorem parse_error_iff_lexical_witness :
    parse none none "1up 4\n" = none ∧
    parse_exposition none none
        ([[RawItem.sample "x" none "1", RawItem.descHelp "x" "oops"]] ++
          [RawItem.sample "y" none "2"] :: []) =
      parse_exposition none none ([[RawItem.sample "x" none "1", RawItem.descHelp "x" "oops"]].take 0 ++
          [RawItem.sample "y" none "2"] :: []) := by
  constructor
  · exact (parse_error_iff_lexical.1 none none "1up 4\n").mpr (by decide)
  · exact parse_error_iff_lexical.2 none none
      [RawItem.sample "x" none "1", RawItem.descHelp "x" "oops"]
      [] [[RawItem.sample "y" none "2"]] (by decide)

/-! ### C2 — instance/job label augmentation -/

/-- C2 (counterexample): with `instance = "I"` and `job = "J"`, a sample
that carries no label block on the wire (`"up 1\n"`) is emitted with an
empty label list — its labels do not begin with `("instance", "I")`,
`("job", "J")`. -/
theorem augmentation_skips_bare_sample :
    parse (some "I") (some "J") "up 1\n" =
      some [{ var := none, help := none, type := SampleType.untyped,
              samples := [{ var := "up", labels := [], value := "1" }] }] := by
  decide

/-- C2 (amended): with `instance = I` and `job = J`, `parse_labels`
prepends `("instance", I), ("job", J)` before the wire labels in wire
order, and this reaches exactly the samples that carry a label block on
the wire; a sample without a label block is emitted with no labels at all
(`parse_sample` skips `parse_labels` when the pest pair has no
`Rule::labels` child). -/
theorem augmentation_only_braced_samples :
    (∀ I J wire, parse_labels (some I) (some J) wire =
      ("instance", I) :: ("job", J) :: wire) ∧
    (∀ I J n wire v s, parse_sample (some I) (some J) n (some wire) v = some s →
      s.labels = ("instance", I) :: ("job", J) :: wire) ∧
    (∀ I J n v s, parse_sample (some I) (some J) n none v = some s → s.labels = []) ∧
    (∀ I J input fams, parse (some I) (some J) input = some fams →
      ∀ fam ∈ fams, ∀ s ∈ fam.samples,
        s.labels = [] ∨ ∃ wire, s.labels = ("instance", I) :: ("job", J) :: wire) := by
  refine ⟨fun I J wire => parse_labels_both I J wire, ?_, ?_, ?_⟩
  · intro I J n wire v s h
    simp only [parse_sample, Option.some.injEq] at h
    rw [← h]
    exact parse_labels_both I J wire
  · intro I J n v s h
    simp only [parse_sample, Option.some.injEq] at h
    rw [← h]
  · intro I J input fams h fam hfam s hs
    rcases parse_mem_labels_shape h fam hfam s hs with hnil | ⟨wire, hw⟩
    · exact Or.inl hnil
    · exact Or.inr ⟨wire, by rw [hw]; exact parse_labels_both I J wire⟩

/-- C2 (witness): on `"up{method=\"GET\"} 1\n"` with `instance = "h"`,
`job = "w"`, the emitted sample's labels begin with the instance and job
pairs followed by the wire label. -/
theorem augmentation_only_braced_samples_witness :
    ([(("instance" : String), ("h" : String)), ("job", "w"), ("method", "GET")] :
        List (String × String)) = [] ∨
    ∃ wire, ([(("instance" : String), ("h" : String)), ("job", "w"), ("method", "GET")] :
        List (String × String)) = ("instance", "h") :: ("job", "w") :: wire := by
  have h := augmentation_only_braced_samples.2.2.2 "h" "w" "up\x7bmethod=\"GET\"\x7d 1\n"
    [{ var := none, help := none, type := SampleType.untyped,
       samples := [{ var := "up",
                     labels := [("instance", "h"), ("job", "w"), ("method", "GET")],
                     value := "1" }] }]
    (by decide)
    { var := none, help := none, type := SampleType.untyped,
      samples := [{ var := "up",
                    labels := [("instance", "h"), ("job", "w"), ("method", "GET")],
                    value := "1" }] }
    (by decide)
    { var := "up", labels := [("instance", "h"), ("job", "w"), ("method", "GET")],
      value := "1" }
    (by decide)
  exact h

/-! ### C9 — instance defaults to the target authority -/

/-- C9 (counterexample): in polling mode without `--instance` the driver
does adopt the URL authority as the instance value, but it is not true
that every sample is then augmented: a sample without a wire label block
(`"up 2\n"`) is emitted with no labels at all. -/
theorem instance_default_not_every_sample :
    runAsyncInstance none (some { authority := some "example.com:9090" }) =
        some "example.com:9090" ∧
    parse (some "example.com:9090") none "up 2\n" =
      some [{ var := none, help := none, type := SampleType.untyped,
              samples := [{ var := "up", labels := [], value := "2" }] }] := by
  constructor
  · rfl
  · decide

/-- C9 (amended): in polling mode, when `--instance` is absent `run_async`
takes the instance value from the target URL's authority (and the flag
wins when present); consequently every sample that carries a wire label
block is augmented with a leading `("instance", authority)` pair, while a
sample without a label block is emitted with no labels. -/
theorem instance_default_authority :
    (∀ u, runAsyncInstance none (some u) = u.authority) ∧
    (∀ i u, runAsyncInstance (some i) u = some i) ∧
    (∀ a wire, parse_labels (some a) none wire = ("instance", a) :: wire) ∧
    (∀ a input fams, parse (some a) none input = some fams →
      ∀ fam ∈ fams, ∀ s ∈ fam.samples,
        s.labels = [] ∨ ∃ wire, s.labels = ("instance", a) :: wire) := by
  refine ⟨fun u => rfl, fun i u => rfl, fun a wire => parse_labels_instance_only a wire, ?_⟩
  intro a input fams h fam hfam s hs
  rcases parse_mem_labels_shape h fam hfam s hs with hnil | ⟨wire, hw⟩
  · exact Or.inl hnil
  · exact Or.inr ⟨wire, by rw [hw]; exact parse_labels_instance_only a wire⟩

/-- C9 (witness): a braced sample scraped from `host:80` without
`--instance` carries the authority as its first label. -/
theorem instance_default_authority_witness :
    ([(("instance" : String), ("host:80" : String)), ("method", "GET")] :
        List (String × String)) = [] ∨
    ∃ wire, ([(("instance" : String), ("host:80" : String)), ("method", "GET")] :
        List (String × String)) = ("instance", "host:80") :: wire := by
  have h := instance_default_authority.2.2.2 "host:80" "up\x7bmethod=\"GET\"\x7d 3\n"
    [{ var := none, help := none, type := SampleType.untyped,
       samples := [{ var := "up", labels := [("instance", "host:80"), ("method", "GET")],
                     value := "3" }] }]
    (by decide)
    { var := none, help := none, type := SampleType.untyped,
      samples := [{ var := "up", labels := [("instance", "host:80"), ("method", "GET")],
                    value := "3" }] }
    (by decide)
    { var := "up", labels := [("instance", "host:80"), ("method", "GET")], value := "3" }
    (by decide)
  exact h

/-! ### C6 — fetch timestamp from the Date header -/

/-- C6 (counterexample): a completed exchange whose `Date` header is
present but not parseable as RFC 2822 does not fall back to the wall
clock: `fetch` panics on the `unwrap` and returns nothing at all, instead
of succeeding with the wall-clock timestamp. -/
theorem fetch_unparseable_date_panics :
    fetch 200 (some none) 1700000000000 "m 1\n" = none ∧
    fetch 200 (some none) 1700000000000 "m 1\n" ≠
      some (castU64 1700000000000, "m 1\n") := by
  exact ⟨rfl, by decide⟩

/-- C6 (amended): on a successful `fetch` the timestamp is the `Date`
header parsed as RFC 2822 in milliseconds since epoch (cast `as u64`);
the wall-clock fallback applies only when the header is absent.  When the
header is present but chrono cannot parse it, `fetch` does not return at
all — the `unwrap` panics — rather than falling back. -/
theorem fetch_timestamp_policy :
    (∀ st now ms body, fetch st (some (some ms)) now body = some (castU64 ms, body)) ∧
    (∀ st now body, fetch st none now body = some (castU64 now, body)) ∧
    (∀ st now body, fetch st (some none) now body = none) := by
  exact ⟨fun _ _ _ _ => rfl, fun _ _ _ => rfl, fun _ _ _ => rfl⟩

/-! ### C10 — status codes are not examined -/

/-- C10: for every completed exchange on which `fetch` returns (the `Date`
header is absent or parseable — the orthogonal panic of C6 aside), the
result is independent of the response status code, and the body — also of
a 4xx or 5xx response — is forwarded unchanged as the scrape body: the
source only debug-logs `res.status()`. -/
theorem fetch_ignores_status (status : Nat) (dateHeader : Option (Option Int))
    (now : Int) (body : String) (h : dateHeader ≠ some none) :
    fetch status dateHeader now body = fetch 200 dateHeader now body ∧
    Option.map Prod.snd (fetch status dateHeader now body) = some body := by
  constructor
  · rfl
  · rcases dateHeader with _ | d
    · rfl
    · rcases d with _ | ms
      · exact absurd rfl h
      · rfl

/-- C10 (witness): a 500 response with no `Date` header still yields the
body as the scrape. -/
theorem fetch_ignores_status_witness :
    fetch 500 none 7 "up 1\n" = fetch 200 none 7 "up 1\n" ∧
    Option.map Prod.snd (fetch 500 none 7 "up 1\n") = some "up 1\n" := by
  exact fetch_ignores_status 500 none 7 "up 1\n" (by decide)

/-! ### C8 — writer drain and shutdown -/

theorem exportFamilies_no_close {σ : Type} (expF : σ → Nat → MetricFamily → Bool × σ)
    (ts : Nat) : ∀ (fams : List MetricFamily) (s : σ),
      WriterEvent.closeCall ∉ (exportFamilies expF ts s fams).2 := by
  intro fams
  induction fams with
  | nil => intro s; simp [exportFamilies]
  | cons f fs ih =>
    intro s
    simp only [exportFamilies]
    intro hmem
    rcases List.mem_append.mp hmem with h0 | h1
    · by_cases hok : (expF s ts f).1 <;> simp [hok] at h0
    · exact ih _ h1

/-- C8 (counterexample): a closed queue holding one entry: the writer
exports the parsed family and exits; its exporter-interaction trace
contains no `close()` call at all — not exactly one.  The `Exporter`
trait of lib.rs:35-37 has no `close` method and `writer_loop` calls only
`export`. -/
theorem writer_loop_no_close_call :
    (writer_loop none none recordingExporter [] [(5, "up 1\n")]).2 =
      [WriterEvent.exportCall 5
        { var := none, help := none, type := SampleType.untyped,
          samples := [{ var := "up", labels := [], value := "1" }] } true] ∧
    ((writer_loop none none recordingExporter [] [(5, "up 1\n")]).2).count
        WriterEvent.closeCall = 0 := by
  constructor
  · decide
  · decide

/-- C8 (amended): when the queue channel is closed, the writer loop drains
and processes every remaining queued entry in order — the run over
`q₁ ++ q₂` is the run over `q₁` followed, from the resulting exporter
state, by the run over `q₂` — and only then exits; it exits on `recv =
None`, which `tokio::mpsc` returns only once the channel is both closed
and empty.  It never calls `close()` on the exporter: the `Exporter`
trait exposes `export` only. -/
theorem writer_loop_drains_then_exits (σ : Type)
    (expF : σ → Nat → MetricFamily → Bool × σ) (i j : Option String)
    (s : σ) (q₁ q₂ : List (Nat × String)) :
    writer_loop i j expF s (q₁ ++ q₂) =
      ((writer_loop i j expF (writer_loop i j expF s q₁).1 q₂).1,
        (writer_loop i j expF s q₁).2 ++
          (writer_loop i j expF (writer_loop i j expF s q₁).1 q₂).2) ∧
    WriterEvent.closeCall ∉ (writer_loop i j expF s (q₁ ++ q₂)).2 := by
  constructor
  · induction q₁ generalizing s with
    | nil => simp [writer_loop]
    | cons e rest ih =>
      rcases e with ⟨ts, body⟩
      simp only [List.cons_append, writer_loop]
      rcases hp : parse i j body with _ | fams
      · exact ih s
      · dsimp only
        simp only [List.append_eq]
        rw [ih (exportFamilies expF ts s fams).1]
        simp [List.append_assoc]
  · generalize q₁ ++ q₂ = q
    induction q generalizing s with
    | nil => simp [writer_loop]
    | cons e rest ih =>
      rcases e with ⟨ts, body⟩
      simp only [writer_loop]
      rcases hp : parse i j body with _ | fams
      · exact ih s
      · intro hmem
        rcases List.mem_append.mp hmem with h0 | h1
        · exact exportFamilies_no_close expF ts fams s h0
        · exact ih _ h1

/-- C8 (witness): with the recording exporter and the two-entry queue, the
drain decomposition holds and the trace has no `close()` call. -/
theorem writer_loop_drains_then_exits_witness :
    writer_loop none none recordingExporter [] ([(1, "a 1\n")] ++ [(2, "b 2\n")]) =
      ((writer_loop none none recordingExporter
          (writer_loop none none recordingExporter [] [(1, "a 1\n")]).1 [(2, "b 2\n")]).1,
        (writer_loop none none recordingExporter [] [(1, "a 1\n")]).2 ++
          (writer_loop none none recordingExporter
            (writer_loop none none recordingExporter [] [(1, "a 1\n")]).1 [(2, "b 2\n")]).2) ∧
    WriterEvent.closeCall ∉
      (writer_loop none none recordingExporter [] ([(1, "a 1\n")] ++ [(2, "b 2\n")])).2 := by
  exact writer_loop_drains_then_exits (List (Nat × MetricFamily)) recordingExporter
    none none [] [(1, "a 1\n")] [(2, "b 2\n")]

/-! ### Generic helper lemmas -/

theorem find?_append_some {α : Type} (p : α → Bool) {l₁ : List α} (l₂ : List α) {a : α}
    (h : l₁.find? p = some a) : (l₁ ++ l₂).find? p = some a := by
  rw [List.find?_append, h]
  rfl

theorem find?_append_of_none {α : Type} (p : α → Bool) {l₁ : List α} (l₂ : List α)
    (h : l₁.find? p = none) : (l₁ ++ l₂).find? p = l₂.find? p := by
  rw [List.find?_append, h]
  rfl

theorem min?_append_ge {l₁ l₂ : List Nat} {i : Nat} (h : l₁.min? = some i)
    (h₂ : ∀ j ∈ l₂, i ≤ j) : (l₁ ++ l₂).min? = some i := by
  rcases List.min?_eq_some_iff'.mp h with ⟨hmem, hle⟩
  refine List.min?_eq_some_iff'.mpr ⟨List.mem_append.mpr (Or.inl hmem), ?_⟩
  intro b hb
  rcases List.mem_append.mp hb with h1 | h2
  · exact hle b h1
  · exact h₂ b h2

theorem countP_le_one_of_name_pairwise {l : List MetricRow}
    (h : l.Pairwise (fun a b => a.name ≠ b.name)) (N : String) :
    l.countP (fun r => r.name == N) ≤ 1 := by
  induction l with
  | nil => simp
  | cons r t ih =>
    rcases List.pairwise_cons.mp h with ⟨hr, ht⟩
    rw [List.countP_cons]
    by_cases hN : r.name == N
    · have hz : t.countP (fun x => x.name == N) = 0 := by
        apply List.countP_eq_zero.mpr
        intro x hx
        have hne : r.name ≠ x.name := hr x hx
        have hrN : r.name = N := by simpa using hN
        simp only [Bool.not_eq_true, beq_eq_false_iff_ne, ne_eq]
        intro hxN
        exact hne (hrN.trans hxN.symm)
      simp [hN, hz]
    · have : (if (r.name == N) = true then 1 else 0) = 0 := by simp [hN]
      rw [this]
      simpa using ih ht

theorem DbExtends_refl (db : SqlState) : DbExtends db db := by
  refine ⟨⟨[], by simp⟩, ⟨[], by simp⟩, ⟨[], by simp⟩, ⟨[], by simp⟩, ⟨[], by simp⟩,
    ⟨[], by simp⟩, ⟨[], by simp⟩, le_refl _⟩

theorem DbExtends_trans {a b c : SqlState} (h1 : DbExtends a b) (h2 : DbExtends b c) :
    DbExtends a c := by
  obtain ⟨⟨m1, hm1⟩, ⟨l1, hl1⟩, ⟨v1, hv1⟩, ⟨s1, hs1, hs1n⟩, ⟨p1, hp1, hp1n⟩,
    ⟨t1, ht1⟩, ⟨r1, hr1⟩, hn1⟩ := h1
  obtain ⟨⟨m2, hm2⟩, ⟨l2, hl2⟩, ⟨v2, hv2⟩, ⟨s2, hs2, hs2n⟩, ⟨p2, hp2, hp2n⟩,
    ⟨t2, ht2⟩, ⟨r2, hr2⟩, hn2⟩ := h2
  refine ⟨⟨m1 ++ m2, by rw [hm2, hm1, List.append_assoc]⟩,
    ⟨l1 ++ l2, by rw [hl2, hl1, List.append_assoc]⟩,
    ⟨v1 ++ v2, by rw [hv2, hv1, List.append_assoc]⟩,
    ⟨s1 ++ s2, by rw [hs2, hs1, List.append_assoc], ?_⟩,
    ⟨p1 ++ p2, by rw [hp2, hp1, List.append_assoc], ?_⟩,
    ⟨t1 ++ t2, by rw [ht2, ht1, List.append_assoc]⟩,
    ⟨r1 ++ r2, by rw [hr2, hr1, List.append_assoc]⟩, le_trans hn1 hn2⟩
  · intro s hs
    rcases List.mem_append.mp hs with h | h
    · exact hs1n s h
    · exact le_trans hn1 (hs2n s h)
  · intro p hp
    rcases List.mem_append.mp hp with h | h
    · exact hp1n p h
    · exact le_trans hn1 (hp2n p h)

theorem seriesQuery_congr {db db' : SqlState} (m : Nat) (ids : List Nat)
    (h1 : db'.series = db.series) (h2 : db'.label_set = db.label_set) :
    seriesQuery db' m ids = seriesQuery db m ids := by
  have hm : seriesMatches db' m ids = seriesMatches db m ids := by
    funext s
    simp [seriesMatches, h2]
  simp [seriesQuery, hm, h1]

theorem framePreserved_refl (w : TableWriter) : framePreserved w w :=
  ⟨rfl, rfl, rfl, rfl, rfl, rfl, rfl⟩

theorem framePreserved_trans {a b c : TableWriter} (h1 : framePreserved a b)
    (h2 : framePreserved b c) : framePreserved a c := by
  obtain ⟨a1, a2, a3, a4, a5, a6, a7⟩ := h1
  obtain ⟨b1, b2, b3, b4, b5, b6, b7⟩ := h2
  exact ⟨b1.trans a1, b2.trans a2, b3.trans a3, b4.trans a4, b5.trans a5,
    b6.trans a6, b7.trans a7⟩

/-! ### Frame lemmas: the interning helpers do not touch the metric table,
the value tables, the log, or the configured ids -/

theorem get_label_id_frame (w : TableWriter) (l : String) :
    framePreserved w (get_label_id w l).2 := by
  unfold get_label_id
  split
  · exact framePreserved_refl w
  · exact ⟨rfl, rfl, rfl, rfl, rfl, rfl, rfl⟩

theorem get_label_id_cached_frame (w : TableWriter) (l : String) :
    framePreserved w (get_label_id_cached w l).2 := by
  unfold get_label_id_cached
  split
  · exact framePreserved_refl w
  · exact get_label_id_frame w l

theorem get_label_value_frame (w : TableWriter) (lid : Nat) (v : String) :
    framePreserved w (get_label_value w lid v).2 := by
  unfold get_label_value
  split
  · exact framePreserved_refl w
  · exact ⟨rfl, rfl, rfl, rfl, rfl, rfl, rfl⟩

theorem get_label_value_cached_frame (w : TableWriter) (l v : String) :
    framePreserved w (get_label_value_cached w l v).2 := by
  unfold get_label_value_cached
  have h0 := get_label_id_cached_frame w l
  dsimp only
  split
  · exact h0
  · exact framePreserved_trans h0
      (get_label_value_frame (get_label_id_cached w l).2 (get_label_id_cached w l).1 v)

theorem resolveLabelValueIds_frame (w : TableWriter) (ls : List (String × String)) :
    framePreserved w (resolveLabelValueIds w ls).2 := by
  induction ls generalizing w with
  | nil => exact framePreserved_refl w
  | cons p rest ih =>
    rcases p with ⟨l, v⟩
    have h0 := get_label_value_cached_frame w l v
    have h1 := ih (get_label_value_cached w l v).2
    exact framePreserved_trans h0 h1

theorem get_series_id_frame (w : TableWriter) (m : Nat) (ids : List Nat) :
    framePreserved w (get_series_id w m ids).2 := by
  unfold get_series_id
  split
  · exact framePreserved_refl w
  · exact ⟨rfl, rfl, rfl, rfl, rfl, rfl, rfl⟩

theorem get_series_id_cached_frame (w : TableWriter) (m : Nat)
    (ls : List (String × String)) : framePreserved w (get_series_id_cached w m ls).2 := by
  unfold get_series_id_cached
  have h0 := resolveLabelValueIds_frame w ls
  dsimp only
  split
  · exact h0
  · exact framePreserved_trans h0
      (get_series_id_frame (resolveLabelValueIds w ls).2 m
        (seriesPrefixIds w ++ (resolveLabelValueIds w ls).1))

/-! ### Invariant machinery: label interning -/

theorem lookup_mem {α β : Type} [BEq α] [LawfulBEq α] {l : List (α × β)} {k : α} {v : β}
    (h : l.lookup k = some v) : (k, v) ∈ l := by
  induction l with
  | nil => simp [List.lookup] at h
  | cons p rest ih =>
    rcases p with ⟨a, b⟩
    rw [List.lookup] at h
    by_cases hk : (k == a) = true
    · simp [hk] at h
      have hka : k = a := by simpa using hk
      simp [hka, h]
    · simp [hk] at h
      exact List.mem_cons_of_mem _ (ih h)

theorem StepOk_refl {w : TableWriter} (h : WriterInv w) : StepOk w w :=
  ⟨h, DbExtends_refl _, rfl, rfl⟩

theorem StepOk_trans {a b c : TableWriter} (h1 : StepOk a b) (h2 : StepOk b c) :
    StepOk a c :=
  ⟨h2.inv, DbExtends_trans h1.ext h2.ext, h2.inst_eq.trans h1.inst_eq,
    h2.job_eq.trans h1.job_eq⟩

theorem get_label_id_spec (w : TableWriter) (l : String) (hInv : WriterInv w) :
    StepOk w (get_label_id w l).2 ∧
    (get_label_id w l).2.db.label.find? (fun r => r.name == l) =
      some { id := (get_label_id w l).1, name := l } := by
  unfold get_label_id
  split
  next row hrow =>
    refine ⟨StepOk_refl hInv, ?_⟩
    have hname : row.name = l := by simpa using List.find?_some hrow
    have hrow2 : row = { id := row.id, name := l } := by
      cases row
      simp_all
    rw [← hrow2]
    exact hrow
  next hrow =>
    constructor
    · refine ⟨?_, ?_, rfl, rfl⟩
      · refine ⟨hInv.metric_nodup, hInv.metric_cache_ok, hInv.tables_have_rows, ?_,
          hInv.lv_cache_ok, hInv.series_lt, hInv.label_set_lt, ?_⟩
        · intro p hp
          exact find?_append_some _ _ (hInv.label_cache_ok p hp)
        · intro p hp
          rw [seriesQuery_congr p.1.1 p.1.2 rfl rfl]
          exact hInv.series_cache_ok p hp
      · exact ⟨⟨[], by simp⟩, ⟨[{ id := w.db.nextLabelId, name := l }], rfl⟩,
          ⟨[], by simp⟩, ⟨[], by simp, by simp⟩, ⟨[], by simp, by simp⟩,
          ⟨[], by simp⟩, ⟨[], by simp⟩, le_refl _⟩
    · rw [find?_append_of_none _ _ hrow]
      simp [List.find?]

theorem get_label_id_cached_spec (w : TableWriter) (l : String) (hInv : WriterInv w) :
    StepOk w (get_label_id_cached w l).2 ∧
    (get_label_id_cached w l).2.db.label.find? (fun r => r.name == l) =
      some { id := (get_label_id_cached w l).1, name := l } := by
  unfold get_label_id_cached
  split
  next id hlook =>
    exact ⟨StepOk_refl hInv, hInv.label_cache_ok (l, id) (lookup_mem hlook)⟩
  next hlook =>
    obtain ⟨hstep, hfind⟩ := get_label_id_spec w l hInv
    refine ⟨⟨?_, hstep.ext, hstep.inst_eq, hstep.job_eq⟩, hfind⟩
    have hi := hstep.inv
    refine ⟨hi.metric_nodup, hi.metric_cache_ok, hi.tables_have_rows, ?_,
      hi.lv_cache_ok, hi.series_lt, hi.label_set_lt, hi.series_cache_ok⟩
    intro p hp
    rcases List.mem_cons.mp hp with hnew | hold
    · rw [hnew]
      exact hfind
    · exact hi.label_cache_ok p hold

theorem get_label_value_spec (w : TableWriter) (lid : Nat) (v : String)
    (hInv : WriterInv w) :
    StepOk w (get_label_value w lid v).2 ∧
    (get_label_value w lid v).2.db.label_value.find?
        (fun r => r.label_id == lid && r.value == v) =
      some { id := (get_label_value w lid v).1, label_id := lid, value := v } := by
  unfold get_label_value
  split
  next row hrow =>
    refine ⟨StepOk_refl hInv, ?_⟩
    have hp := List.find?_some hrow
    have hlid : row.label_id = lid := by
      have := (Bool.and_eq_true _ _).mp hp
      simpa using this.1
    have hv : row.value = v := by
      have := (Bool.and_eq_true _ _).mp hp
      simpa using this.2
    have hrow2 : row = { id := row.id, label_id := lid, value := v } := by
      cases row
      simp_all
    rw [← hrow2]
    exact hrow
  next hrow =>
    constructor
    · refine ⟨?_, ?_, rfl, rfl⟩
      · refine ⟨hInv.metric_nodup, hInv.metric_cache_ok, hInv.tables_have_rows,
          hInv.label_cache_ok, ?_, hInv.series_lt, hInv.label_set_lt, ?_⟩
        · intro p hp
          exact find?_append_some _ _ (hInv.lv_cache_ok p hp)
        · intro p hp
          rw [seriesQuery_congr p.1.1 p.1.2 rfl rfl]
          exact hInv.series_cache_ok p hp
      · exact ⟨⟨[], by simp⟩, ⟨[], by simp⟩,
          ⟨[{ id := w.db.nextLabelValueId, label_id := lid, value := v }], rfl⟩,
          ⟨[], by simp, by simp⟩, ⟨[], by simp, by simp⟩,
          ⟨[], by simp⟩, ⟨[], by simp⟩, le_refl _⟩
    · rw [find?_append_of_none _ _ hrow]
      simp [List.find?]

theorem get_label_value_cached_spec (w : TableWriter) (l v : String)
    (hInv : WriterInv w) :
    StepOk w (get_label_value_cached w l v).2 ∧
    lvResolve (get_label_value_cached w l v).2.db l v =
      some (get_label_value_cached w l v).1 := by
  obtain ⟨hstep0, hfind0⟩ := get_label_id_cached_spec w l hInv
  unfold get_label_value_cached
  dsimp only
  split
  next id hlook =>
    refine ⟨hstep0, ?_⟩
    have hlv := hstep0.inv.lv_cache_ok (((get_label_id_cached w l).1, v), id)
      (lookup_mem hlook)
    unfold lvResolve
    rw [hfind0]
    dsimp only
    rw [hlv]
    rfl
  next hlook =>
    obtain ⟨hstep1, hfind1⟩ :=
      get_label_value_spec (get_label_id_cached w l).2 (get_label_id_cached w l).1 v
        hstep0.inv
    have hstep01 := StepOk_trans hstep0 hstep1
    constructor
    · refine ⟨?_, hstep01.ext, hstep01.inst_eq, hstep01.job_eq⟩
      have hi := hstep01.inv
      refine ⟨hi.metric_nodup, hi.metric_cache_ok, hi.tables_have_rows,
        hi.label_cache_ok, ?_, hi.series_lt, hi.label_set_lt, hi.series_cache_ok⟩
      intro p hp
      rcases List.mem_cons.mp hp with hnew | hold
      · rw [hnew]
        exact hfind1
      · exact hi.lv_cache_ok p hold
    · have hlabelkeep :
          (get_label_value (get_label_id_cached w l).2 (get_label_id_cached w l).1 v).2.db.label =
            (get_label_id_cached w l).2.db.label := by
        unfold get_label_value
        split <;> rfl
      show lvResolve
          (get_label_value (get_label_id_cached w l).2 (get_label_id_cached w l).1 v).2.db l v =
        some (get_label_value (get_label_id_cached w l).2 (get_label_id_cached w l).1 v).1
      unfold lvResolve
      rw [hlabelkeep, hfind0]
      dsimp only
      rw [hfind1]
      rfl

theorem lvResolve_extends {db db' : SqlState} (h : DbExtends db db') {l v : String}
    {i : Nat} (hres : lvResolve db l v = some i) : lvResolve db' l v = some i := by
  unfold lvResolve at hres ⊢
  rcases hl : db.label.find? (fun r => r.name == l) with _ | lr <;> rw [hl] at hres
  · exact absurd hres (by simp)
  · dsimp only at hres
    obtain ⟨t, ht⟩ := h.label_ext
    rw [ht, find?_append_some _ _ hl]
    dsimp only
    rcases hv : db.label_value.find? (fun r => r.label_id == lr.id && r.value == v)
      with _ | row <;> rw [hv] at hres
    · exact absurd hres (by simp)
    · obtain ⟨u, hu⟩ := h.label_value_ext
      rw [hu, find?_append_some _ _ hv]
      exact hres

theorem get_label_id_found {w : TableWriter} {l : String} {lr : LabelRow}
    (h : w.db.label.find? (fun r => r.name == l) = some lr) :
    get_label_id w l = (lr.id, w) := by
  unfold get_label_id
  rw [h]

theorem get_label_id_cached_found {w : TableWriter} {l : String} {lr : LabelRow}
    (hInv : WriterInv w) (h : w.db.label.find? (fun r => r.name == l) = some lr) :
    (get_label_id_cached w l).1 = lr.id ∧ (get_label_id_cached w l).2.db = w.db := by
  unfold get_label_id_cached
  split
  next id hlook =>
    have hc := hInv.label_cache_ok (l, id) (lookup_mem hlook)
    rw [h] at hc
    have : lr = { id := id, name := l } := by simpa using hc
    exact ⟨by rw [this], rfl⟩
  next hlook =>
    rw [get_label_id_found h]
    exact ⟨rfl, rfl⟩

theorem get_label_value_found {w : TableWriter} {lid : Nat} {v : String}
    {row : LabelValueRow}
    (h : w.db.label_value.find? (fun r => r.label_id == lid && r.value == v) = some row) :
    get_label_value w lid v = (row.id, w) := by
  unfold get_label_value
  rw [h]

theorem get_label_value_cached_resolved {w : TableWriter} {l v : String} {i : Nat}
    (hInv : WriterInv w) (hres : lvResolve w.db l v = some i) :
    (get_label_value_cached w l v).1 = i ∧ (get_label_value_cached w l v).2.db = w.db := by
  unfold lvResolve at hres
  rcases hl : w.db.label.find? (fun r => r.name == l) with _ | lr <;> rw [hl] at hres
  · exact absurd hres (by simp)
  · dsimp only at hres
    rcases hv : w.db.label_value.find? (fun r => r.label_id == lr.id && r.value == v)
      with _ | row <;> rw [hv] at hres
    · exact absurd hres (by simp)
    · have hi : row.id = i := by simpa using hres
      obtain ⟨hid0, hdb0⟩ := get_label_id_cached_found hInv hl
      obtain ⟨hstep0, _⟩ := get_label_id_cached_spec w l hInv
      unfold get_label_value_cached
      dsimp only
      split
      next c hlook =>
        have hc := hstep0.inv.lv_cache_ok (((get_label_id_cached w l).1, v), c)
          (lookup_mem hlook)
        rw [hdb0, hid0, hv] at hc
        have : row = { id := c, label_id := lr.id, value := v } := by simpa using hc
        refine ⟨?_, hdb0⟩
        rw [← hi, this]
      next hlook =>
        have hv2 : (get_label_id_cached w l).2.db.label_value.find?
            (fun r => r.label_id == (get_label_id_cached w l).1 && r.value == v) =
              some row := by
          rw [hdb0, hid0]
          exact hv
        rw [get_label_value_found hv2]
        exact ⟨hi, hdb0⟩

theorem resolveLabelValueIds_spec (w : TableWriter) (ls : List (String × String))
    (hInv : WriterInv w) :
    StepOk w (resolveLabelValueIds w ls).2 ∧
    lvResolveList (resolveLabelValueIds w ls).2.db ls = some (resolveLabelValueIds w ls).1 := by
  induction ls generalizing w with
  | nil => exact ⟨StepOk_refl hInv, rfl⟩
  | cons p rest ih =>
    rcases p with ⟨l, v⟩
    obtain ⟨hstep1, hres1⟩ := get_label_value_cached_spec w l v hInv
    obtain ⟨hstep2, hres2⟩ := ih (get_label_value_cached w l v).2 hstep1.inv
    refine ⟨StepOk_trans hstep1 hstep2, ?_⟩
    have hres1' := lvResolve_extends hstep2.ext hres1
    unfold resolveLabelValueIds
    dsimp only
    unfold lvResolveList
    rw [hres1', hres2]

theorem lvResolveList_extends {db db' : SqlState} (h : DbExtends db db')
    {ls : List (String × String)} {ids : List Nat}
    (hres : lvResolveList db ls = some ids) : lvResolveList db' ls = some ids := by
  induction ls generalizing ids with
  | nil =>
    simp only [lvResolveList] at hres ⊢
    exact hres
  | cons p rest ih =>
    rcases p with ⟨l, v⟩
    unfold lvResolveList at hres ⊢
    rcases h1 : lvResolve db l v with _ | i <;> rw [h1] at hres
    · exact absurd hres (by simp)
    · rcases h2 : lvResolveList db rest with _ | tl <;> rw [h2] at hres
      · exact absurd hres (by simp)
      · rw [lvResolve_extends h h1, ih h2]
        exact hres

theorem resolveLabelValueIds_resolved {w : TableWriter} {ls : List (String × String)}
    {ids : List Nat} (hInv : WriterInv w) (hres : lvResolveList w.db ls = some ids) :
    (resolveLabelValueIds w ls).1 = ids ∧ (resolveLabelValueIds w ls).2.db = w.db := by
  induction ls generalizing w ids with
  | nil =>
    simp only [lvResolveList] at hres
    have : ids = [] := by simpa using hres.symm
    exact ⟨by rw [this]; rfl, rfl⟩
  | cons p rest ih =>
    rcases p with ⟨l, v⟩
    unfold lvResolveList at hres
    rcases h1 : lvResolve w.db l v with _ | i <;> rw [h1] at hres
    · exact absurd hres (by simp)
    · rcases h2 : lvResolveList w.db rest with _ | tl <;> rw [h2] at hres
      · exact absurd hres (by simp)
      · have hids : ids = i :: tl := by simpa using hres.symm
        obtain ⟨hv1, hdb1⟩ := get_label_value_cached_resolved hInv h1
        obtain ⟨hstep1, _⟩ := get_label_value_cached_spec w l v hInv
        have h2' : lvResolveList (get_label_value_cached w l v).2.db rest = some tl := by
          rw [hdb1]
          exact h2
        obtain ⟨hv2, hdb2⟩ := ih hstep1.inv h2'
        unfold resolveLabelValueIds
        dsimp only
        rw [hids]
        constructor
        · rw [hv1, hv2]
        · rw [hdb2, hdb1]

/-! ### Invariant machinery: series interning -/

theorem seriesPrefixIds_congr {w w' : TableWriter} (h1 : w'.instanceLV = w.instanceLV)
    (h2 : w'.jobLV = w.jobLV) : seriesPrefixIds w' = seriesPrefixIds w := by
  simp [seriesPrefixIds, h1, h2]

theorem seriesMatches_stable {db : SqlState}
    (hlt : ∀ s ∈ db.series, s.id < db.nextSeriesId) {u : List LabelSetRow}
    (hun : ∀ p ∈ u, db.nextSeriesId ≤ p.series_id) {db' : SqlState}
    (h2 : db'.label_set = db.label_set ++ u) (m : Nat) (ids : List Nat) :
    ∀ s ∈ db.series, seriesMatches db' m ids s = seriesMatches db m ids s := by
  intro s hs
  unfold seriesMatches
  have hcont : ∀ lv : Nat,
      db'.label_set.contains { series_id := s.id, label_value_id := lv } =
        db.label_set.contains { series_id := s.id, label_value_id := lv } := by
    intro lv
    rw [h2]
    by_cases hmem : ({ series_id := s.id, label_value_id := lv } : LabelSetRow) ∈ db.label_set
    · have h1 : (db.label_set ++ u).contains
          ({ series_id := s.id, label_value_id := lv } : LabelSetRow) = true := by
        simp [List.mem_append, hmem]
      have h2' : db.label_set.contains
          ({ series_id := s.id, label_value_id := lv } : LabelSetRow) = true := by
        simp [hmem]
      rw [h1, h2']
    · have hnu : ({ series_id := s.id, label_value_id := lv } : LabelSetRow) ∉ u := by
        intro hxu
        have hle := hun _ hxu
        have hlt2 := hlt s hs
        simp only at hle
        omega
      have h1 : (db.label_set ++ u).contains
          ({ series_id := s.id, label_value_id := lv } : LabelSetRow) = false := by
        simp [List.mem_append, hmem, hnu]
      have h2' : db.label_set.contains
          ({ series_id := s.id, label_value_id := lv } : LabelSetRow) = false := by
        simp [hmem]
      rw [h1, h2']
  simp only [hcont]

theorem seriesQuery_extends {db db' : SqlState}
    (hlt : ∀ s ∈ db.series, s.id < db.nextSeriesId) (h : DbExtends db db')
    {m : Nat} {ids : List Nat} {i : Nat} (hq : seriesQuery db m ids = some i) :
    seriesQuery db' m ids = some i := by
  obtain ⟨t, ht, htn⟩ := h.series_ext
  obtain ⟨u, hu, hun⟩ := h.label_set_ext
  have hmatch := seriesMatches_stable hlt hun hu m ids
  have hfilter : db'.series.filter (seriesMatches db' m ids) =
      db.series.filter (seriesMatches db m ids) ++ t.filter (seriesMatches db' m ids) := by
    rw [ht, List.filter_append]
    congr 1
    exact List.filter_congr hmatch
  unfold seriesQuery at hq ⊢
  rw [hfilter, List.map_append]
  apply min?_append_ge hq
  intro j hj
  obtain ⟨s, hs, hsj⟩ := List.mem_map.mp hj
  have hjn : db.nextSeriesId ≤ j := hsj ▸ htn s (List.mem_of_mem_filter hs)
  have hi : i ∈ (db.series.filter (seriesMatches db m ids)).map SeriesRow.id :=
    (List.min?_eq_some_iff'.mp hq).1
  obtain ⟨s₀, hs₀, hs₀i⟩ := List.mem_map.mp hi
  have hin : i < db.nextSeriesId := hs₀i ▸ hlt s₀ (List.mem_of_mem_filter hs₀)
  omega

theorem get_series_id_found {w : TableWriter} {m : Nat} {ids : List Nat} {sid : Nat}
    (h : seriesQuery w.db m ids = some sid) : get_series_id w m ids = (sid, w) := by
  unfold get_series_id
  rw [h]

theorem insertSeries_extends (w : TableWriter) (m : Nat) (ids : List Nat) :
    DbExtends w.db (insertSeries w m ids).db := by
  refine ⟨⟨[], by simp [insertSeries]⟩, ⟨[], by simp [insertSeries]⟩,
    ⟨[], by simp [insertSeries]⟩,
    ⟨[{ id := w.db.nextSeriesId, metric_id := m }], rfl, ?_⟩,
    ⟨ids.map (fun lv => { series_id := w.db.nextSeriesId, label_value_id := lv }),
      rfl, ?_⟩, ⟨[], by simp [insertSeries]⟩, ⟨[], by simp [insertSeries]⟩, Nat.le_succ _⟩
  · intro s hs
    rcases List.mem_singleton.mp hs with rfl
    exact le_refl _
  · intro p hp
    obtain ⟨lv, _, hlv⟩ := List.mem_map.mp hp
    rw [← hlv]

theorem insertSeries_query (w : TableWriter) (m : Nat) (ids : List Nat)
    (hInv : WriterInv w) (hq : seriesQuery w.db m ids = none) :
    seriesQuery (insertSeries w m ids).db m ids = some w.db.nextSeriesId := by
  have hfe : w.db.series.filter (seriesMatches w.db m ids) = [] := by
    unfold seriesQuery at hq
    exact List.map_eq_nil_iff.mp (List.min?_eq_none_iff.mp hq)
  obtain ⟨u, hu, hun⟩ := (insertSeries_extends w m ids).label_set_ext
  have hmatch := seriesMatches_stable hInv.series_lt hun hu m ids
  have hnewmatch : seriesMatches (insertSeries w m ids).db m ids
      { id := w.db.nextSeriesId, metric_id := m } = true := by
    unfold seriesMatches
    refine (Bool.and_eq_true _ _).mpr ⟨by simp, ?_⟩
    refine List.all_eq_true.mpr ?_
    intro lv hlv
    have hmem : ({ series_id := w.db.nextSeriesId, label_value_id := lv } : LabelSetRow) ∈
        (insertSeries w m ids).db.label_set := by
      refine List.mem_append.mpr (Or.inr ?_)
      exact List.mem_map.mpr ⟨lv, hlv, rfl⟩
    simpa using hmem
  unfold seriesQuery
  have hser : (insertSeries w m ids).db.series =
      w.db.series ++ [{ id := w.db.nextSeriesId, metric_id := m }] := rfl
  rw [hser, List.filter_append, List.filter_congr hmatch, hfe]
  simp [hnewmatch]

theorem insertSeries_inv (w : TableWriter) (m : Nat) (ids : List Nat)
    (hInv : WriterInv w) : WriterInv (insertSeries w m ids) := by
  refine ⟨hInv.metric_nodup, hInv.metric_cache_ok, hInv.tables_have_rows,
    hInv.label_cache_ok, hInv.lv_cache_ok, ?_, ?_, ?_⟩
  · intro s hs
    rcases List.mem_append.mp hs with hold | hnew
    · have := hInv.series_lt s hold
      show s.id < w.db.nextSeriesId + 1
      omega
    · rcases List.mem_singleton.mp hnew with rfl
      exact Nat.lt_succ_self _
  · intro p hp
    rcases List.mem_append.mp hp with hold | hnew
    · have := hInv.label_set_lt p hold
      show p.series_id < w.db.nextSeriesId + 1
      omega
    · obtain ⟨lv, _, hlv⟩ := List.mem_map.mp hnew
      rw [← hlv]
      exact Nat.lt_succ_self _
  · intro p hp
    exact seriesQuery_extends hInv.series_lt (insertSeries_extends w m ids)
      (hInv.series_cache_ok p hp)

theorem get_series_id_spec (w : TableWriter) (m : Nat) (ids : List Nat)
    (hInv : WriterInv w) :
    StepOk w (get_series_id w m ids).2 ∧
    seriesQuery (get_series_id w m ids).2.db m ids = some (get_series_id w m ids).1 := by
  unfold get_series_id
  split
  next sid hq => exact ⟨StepOk_refl hInv, hq⟩
  next hq =>
    exact ⟨⟨insertSeries_inv w m ids hInv, insertSeries_extends w m ids, rfl, rfl⟩,
      insertSeries_query w m ids hInv hq⟩

theorem seriesAnswer_congr {w w' : TableWriter} (hdb : w'.db = w.db)
    (hi : w'.instanceLV = w.instanceLV) (hj : w'.jobLV = w.jobLV) (m : Nat)
    (ls : List (String × String)) : seriesAnswer w' m ls = seriesAnswer w m ls := by
  unfold seriesAnswer
  rw [hdb, seriesPrefixIds_congr hi hj]

theorem get_series_id_cached_spec (w : TableWriter) (m : Nat)
    (ls : List (String × String)) (hInv : WriterInv w) :
    StepOk w (get_series_id_cached w m ls).2 ∧
    seriesAnswer (get_series_id_cached w m ls).2 m ls =
      some (get_series_id_cached w m ls).1 := by
  obtain ⟨hstepR, hresR⟩ := resolveLabelValueIds_spec w ls hInv
  unfold get_series_id_cached
  dsimp only
  split
  next c hlook =>
    refine ⟨hstepR, ?_⟩
    have hq := hstepR.inv.series_cache_ok
      ((m, seriesPrefixIds w ++ (resolveLabelValueIds w ls).1), c) (lookup_mem hlook)
    unfold seriesAnswer
    rw [hresR]
    dsimp only
    rw [seriesPrefixIds_congr hstepR.inst_eq hstepR.job_eq]
    exact hq
  next hlook =>
    obtain ⟨hstepS, hqS⟩ := get_series_id_spec (resolveLabelValueIds w ls).2 m
      (seriesPrefixIds w ++ (resolveLabelValueIds w ls).1) hstepR.inv
    have hresR' := lvResolveList_extends hstepS.ext hresR
    have hstepRS := StepOk_trans hstepR hstepS
    constructor
    · refine ⟨?_, hstepRS.ext, hstepRS.inst_eq, hstepRS.job_eq⟩
      have hi := hstepRS.inv
      refine ⟨hi.metric_nodup, hi.metric_cache_ok, hi.tables_have_rows,
        hi.label_cache_ok, hi.lv_cache_ok, hi.series_lt, hi.label_set_lt, ?_⟩
      intro p hp
      rcases List.mem_cons.mp hp with hnew | hold
      · rw [hnew]
        exact hqS
      · exact hi.series_cache_ok p hold
    · have hans : seriesAnswer
          (get_series_id (resolveLabelValueIds w ls).2 m
            (seriesPrefixIds w ++ (resolveLabelValueIds w ls).1)).2 m ls =
          some (get_series_id (resolveLabelValueIds w ls).2 m
            (seriesPrefixIds w ++ (resolveLabelValueIds w ls).1)).1 := by
        unfold seriesAnswer
        rw [hresR']
        dsimp only
        rw [seriesPrefixIds_congr hstepRS.inst_eq hstepRS.job_eq]
        exact hqS
      exact (seriesAnswer_congr rfl rfl rfl m ls).trans hans

theorem seriesAnswer_extends {w w' : TableWriter} (hInv : WriterInv w)
    (hext : DbExtends w.db w'.db) (hi : w'.instanceLV = w.instanceLV)
    (hj : w'.jobLV = w.jobLV) {m : Nat} {ls : List (String × String)} {i : Nat}
    (h : seriesAnswer w m ls = some i) : seriesAnswer w' m ls = some i := by
  unfold seriesAnswer at h ⊢
  rcases hres : lvResolveList w.db ls with _ | ids <;> rw [hres] at h
  · exact absurd h (by simp)
  · rw [lvResolveList_extends hext hres]
    dsimp only at h ⊢
    rw [seriesPrefixIds_congr hi hj]
    exact seriesQuery_extends hInv.series_lt hext h

theorem get_series_id_cached_answered {u : TableWriter} {m : Nat}
    {ls : List (String × String)} {i : Nat} (hInv : WriterInv u)
    (h : seriesAnswer u m ls = some i) : (get_series_id_cached u m ls).1 = i := by
  unfold seriesAnswer at h
  rcases hres : lvResolveList u.db ls with _ | ids <;> rw [hres] at h
  · exact absurd h (by simp)
  · dsimp only at h
    obtain ⟨hids, hdb⟩ := resolveLabelValueIds_resolved hInv hres
    obtain ⟨hstepR, _⟩ := resolveLabelValueIds_spec u ls hInv
    unfold get_series_id_cached
    dsimp only
    split
    next c hlook =>
      have hq := hstepR.inv.series_cache_ok
        ((m, seriesPrefixIds u ++ (resolveLabelValueIds u ls).1), c) (lookup_mem hlook)
      rw [hdb, hids] at hq
      rw [hq] at h
      simpa using h
    next hlook =>
      have hq : seriesQuery (resolveLabelValueIds u ls).2.db m
          (seriesPrefixIds u ++ (resolveLabelValueIds u ls).1) = some i := by
        rw [hdb, hids]
        exact h
      rw [get_series_id_found hq]

/-! ### Invariant machinery: metric interning and family processing -/

theorem insertMetric_spec (w : TableWriter) (n : String) (ty : SampleType)
    (help : Option String) (hInv : WriterInv w)
    (hnone : selectMetricByName w.db n = none) :
    WriterInv (insertMetric w n ty help) ∧ DbExtends w.db (insertMetric w n ty help).db ∧
    selectMetricByName (insertMetric w n ty help).db n =
      some { id := w.db.nextMetricId, name := n, mtype := sampleTypeText ty, help := help } := by
  have hall : ∀ r ∈ w.db.metric, r.name ≠ n := by
    intro r hr
    have := List.find?_eq_none.mp hnone r hr
    simpa using this
  refine ⟨⟨?_, ?_, ?_, hInv.label_cache_ok, hInv.lv_cache_ok, hInv.series_lt,
      hInv.label_set_lt, ?_⟩, ?_, ?_⟩
  · refine List.pairwise_append.mpr ⟨hInv.metric_nodup, List.pairwise_singleton _ _, ?_⟩
    intro a ha b hb
    rcases List.mem_singleton.mp hb with rfl
    exact hall a ha
  · intro p hp
    obtain ⟨r, hr, hrid⟩ := hInv.metric_cache_ok p hp
    exact ⟨r, find?_append_some _ _ hr, hrid⟩
  · intro tn htn
    obtain ⟨r, hr, hrn⟩ := hInv.tables_have_rows tn htn
    exact ⟨r, List.mem_append_left _ hr, hrn⟩
  · intro p hp
    rw [seriesQuery_congr p.1.1 p.1.2 rfl rfl]
    exact hInv.series_cache_ok p hp
  · exact ⟨⟨[{ id := w.db.nextMetricId, name := n, mtype := sampleTypeText ty, help := help }],
      rfl⟩, ⟨[], by simp [insertMetric]⟩, ⟨[], by simp [insertMetric]⟩,
      ⟨[], by simp [insertMetric], by simp⟩, ⟨[], by simp [insertMetric], by simp⟩,
      ⟨[], by simp [insertMetric]⟩, ⟨[], by simp [insertMetric]⟩, le_refl _⟩
  · unfold selectMetricByName at hnone ⊢
    rw [show (insertMetric w n ty help).db.metric = w.db.metric ++
        [{ id := w.db.nextMetricId, name := n, mtype := sampleTypeText ty, help := help }]
      from rfl]
    rw [find?_append_of_none _ _ hnone]
    simp [List.find?]

theorem createTableState_spec (w : TableWriter) (n : String) (hInv : WriterInv w)
    (hrow : ∃ r, r ∈ w.db.metric ∧ r.name = n) :
    WriterInv (createTableState w n) ∧ DbExtends w.db (createTableState w n).db := by
  refine ⟨⟨hInv.metric_nodup, hInv.metric_cache_ok, ?_, hInv.label_cache_ok,
      hInv.lv_cache_ok, hInv.series_lt, hInv.label_set_lt, ?_⟩, ?_⟩
  · intro tn htn
    rcases List.mem_append.mp htn with hold | hnew
    · exact hInv.tables_have_rows tn hold
    · rcases List.mem_singleton.mp hnew with rfl
      exact hrow
  · intro p hp
    rw [seriesQuery_congr p.1.1 p.1.2 rfl rfl]
    exact hInv.series_cache_ok p hp
  · exact ⟨⟨[], by simp [createTableState]⟩, ⟨[], by simp [createTableState]⟩,
      ⟨[], by simp [createTableState]⟩, ⟨[], by simp [createTableState], by simp⟩,
      ⟨[], by simp [createTableState], by simp⟩, ⟨[n], rfl⟩,
      ⟨[], by simp [createTableState]⟩, le_refl _⟩

theorem contains_false_of_select_none {w : TableWriter} {n : String}
    (hInv : WriterInv w) (hnone : selectMetricByName w.db n = none) :
    w.db.scalarTables.contains n = false := by
  by_contra hc
  have hmem : n ∈ w.db.scalarTables := by
    have : w.db.scalarTables.contains n = true := by
      revert hc
      cases w.db.scalarTables.contains n <;> simp
    simpa using this
  obtain ⟨r, hr, hrn⟩ := hInv.tables_have_rows n hmem
  have := List.find?_eq_none.mp hnone r hr
  simp [hrn] at this

theorem get_metric_id_spec (w : TableWriter) (n : String) (ty : SampleType)
    (help : Option String) (hInv : WriterInv w) :
    StepOk w (get_metric_id w n ty help).2 ∧
    (∀ id, (get_metric_id w n ty help).1 = Except.ok id →
      ∃ r, selectMetricByName (get_metric_id w n ty help).2.db n = some r ∧ r.id = id) := by
  unfold get_metric_id
  split
  next row hrow =>
    refine ⟨StepOk_refl hInv, ?_⟩
    intro id hid
    exact ⟨row, hrow, by simpa using hid⟩
  next hnone =>
    obtain ⟨hInv1, hext1, hsel1⟩ := insertMetric_spec w n ty help hInv hnone
    dsimp only
    by_cases hscalar : ty.isScalar
    · rw [if_pos hscalar]
      have hnotin : w.db.scalarTables.contains n = false :=
        contains_false_of_select_none hInv hnone
      have hnotin2 : (insertMetric w n ty help).db.scalarTables.contains n = false := hnotin
      have hcreate : create_scalar (insertMetric w n ty help).db n =
          Except.ok (createTableState (insertMetric w n ty help) n).db := by
        unfold create_scalar
        rw [hnotin2]
        rfl
      rw [hcreate]
      obtain ⟨hInv2, hext2⟩ := createTableState_spec (insertMetric w n ty help) n hInv1
        ⟨{ id := w.db.nextMetricId, name := n, mtype := sampleTypeText ty, help := help },
          by
            have : selectMetricByName (insertMetric w n ty help).db n =
                some { id := w.db.nextMetricId, name := n, mtype := sampleTypeText ty,
                       help := help } := hsel1
            exact ⟨List.mem_of_find?_eq_some this, rfl⟩⟩
      refine ⟨⟨hInv2, DbExtends_trans hext1 hext2, rfl, rfl⟩, ?_⟩
      intro id hid
      have hid2 : id = w.db.nextMetricId := by simpa using hid.symm
      refine ⟨{ id := w.db.nextMetricId, name := n, mtype := sampleTypeText ty, help := help },
        ?_, by rw [hid2]⟩
      show selectMetricByName (createTableState (insertMetric w n ty help) n).db n = _
      unfold selectMetricByName at hsel1 ⊢
      rw [show (createTableState (insertMetric w n ty help) n).db.metric =
        (insertMetric w n ty help).db.metric from rfl]
      exact hsel1
    · rw [if_neg hscalar]
      refine ⟨⟨hInv1, hext1, rfl, rfl⟩, ?_⟩
      intro id hid
      have hid2 : id = w.db.nextMetricId := by simpa using hid.symm
      exact ⟨{ id := w.db.nextMetricId, name := n, mtype := sampleTypeText ty, help := help },
        hsel1, by rw [hid2]⟩

theorem get_metric_id_cached_spec (w : TableWriter) (n : String) (ty : SampleType)
    (help : Option String) (hInv : WriterInv w) :
    StepOk w (get_metric_id_cached w n ty help).2 := by
  unfold get_metric_id_cached
  split
  next id hlook => exact StepOk_refl hInv
  next hlook =>
    obtain ⟨hstep, hfact⟩ := get_metric_id_spec w n ty help hInv
    split
    next id w1 heq =>
      have hw1 : w1 = (get_metric_id w n ty help).2 := by rw [heq]
      have hid : (get_metric_id w n ty help).1 = Except.ok id := by rw [heq]
      obtain ⟨r, hr, hrid⟩ := hfact id hid
      refine ⟨?_, ?_, ?_, ?_⟩
      · have hi : WriterInv w1 := hw1 ▸ hstep.inv
        refine ⟨hi.metric_nodup, ?_, hi.tables_have_rows, hi.label_cache_ok,
          hi.lv_cache_ok, hi.series_lt, hi.label_set_lt, hi.series_cache_ok⟩
        intro p hp
        rcases List.mem_cons.mp hp with hnew | hold
        · rw [hnew]
          exact ⟨r, by rw [hw1]; exact hr, hrid⟩
        · exact hi.metric_cache_ok p hold
      · show DbExtends w.db w1.db
        rw [hw1]
        exact hstep.ext
      · show w1.instanceLV = w.instanceLV
        rw [hw1]
        exact hstep.inst_eq
      · show w1.jobLV = w.jobLV
        rw [hw1]
        exact hstep.job_eq
    next e w1 heq =>
      have hw1 : w1 = (get_metric_id w n ty help).2 := by rw [heq]
      rw [hw1]
      exact hstep

theorem get_metric_id_cached_found {w : TableWriter} {n : String} {r : MetricRow}
    (ty : SampleType) (help : Option String) (hInv : WriterInv w)
    (hrow : selectMetricByName w.db n = some r) :
    (get_metric_id_cached w n ty help).1 = Except.ok r.id ∧
    (get_metric_id_cached w n ty help).2.db = w.db := by
  unfold get_metric_id_cached
  split
  next id hlook =>
    obtain ⟨r2, hr2, hr2id⟩ := hInv.metric_cache_ok (n, id) (lookup_mem hlook)
    rw [hrow] at hr2
    have : r = r2 := by simpa using hr2
    exact ⟨by rw [this, hr2id], rfl⟩
  next hlook =>
    have hget : get_metric_id w n ty help = (Except.ok r.id, w) := by
      unfold get_metric_id
      rw [hrow]
    rw [hget]
    exact ⟨rfl, rfl⟩

theorem get_metric_id_cached_inserts {w : TableWriter} {n : String}
    (ty : SampleType) (help : Option String) (hInv : WriterInv w)
    (hnone : selectMetricByName w.db n = none) :
    (get_metric_id_cached w n ty help).1 = Except.ok w.db.nextMetricId ∧
    (get_metric_id_cached w n ty help).2.db.metric = w.db.metric ++
      [{ id := w.db.nextMetricId, name := n, mtype := sampleTypeText ty, help := help }] := by
  have hlook : w.metric_cache.lookup n = none := by
    rcases hl : w.metric_cache.lookup n with _ | id
    · rfl
    · obtain ⟨r, hr, _⟩ := hInv.metric_cache_ok (n, id) (lookup_mem hl)
      rw [hnone] at hr
      exact absurd hr (by simp)
  unfold get_metric_id_cached
  rw [hlook]
  have hget : get_metric_id w n ty help =
      (Except.ok w.db.nextMetricId,
        if ty.isScalar then createTableState (insertMetric w n ty help) n
        else insertMetric w n ty help) := by
    unfold get_metric_id
    rw [hnone]
    dsimp only
    by_cases hscalar : ty.isScalar
    · rw [if_pos hscalar, if_pos hscalar]
      have hnotin : w.db.scalarTables.contains n = false :=
        contains_false_of_select_none hInv hnone
      have hnotin2 : (insertMetric w n ty help).db.scalarTables.contains n = false := hnotin
      have hcreate : create_scalar (insertMetric w n ty help).db n =
          Except.ok (createTableState (insertMetric w n ty help) n).db := by
        unfold create_scalar
        rw [hnotin2]
        rfl
      rw [hcreate]
      rfl
    · rw [if_neg hscalar, if_neg hscalar]
  rw [hget]
  by_cases hscalar : ty.isScalar
  · rw [if_pos hscalar]
    exact ⟨rfl, rfl⟩
  · rw [if_neg hscalar]
    exact ⟨rfl, rfl⟩

theorem StepOk_log (w : TableWriter) (L : List LogEvent) (hInv : WriterInv w) :
    StepOk w { w with log := L } :=
  ⟨⟨hInv.metric_nodup, hInv.metric_cache_ok, hInv.tables_have_rows,
    hInv.label_cache_ok, hInv.lv_cache_ok, hInv.series_lt, hInv.label_set_lt,
    hInv.series_cache_ok⟩, DbExtends_refl w.db, rfl, rfl⟩

theorem create_scalar_ok_inv {db db2 : SqlState} {n : String}
    (h : create_scalar db n = Except.ok db2) :
    db2 = { db with scalarTables := db.scalarTables ++ [n] } := by
  unfold create_scalar at h
  split at h
  · exact absurd h (by simp)
  · simpa using h.symm

theorem insert_scalar_ok_inv {db db2 : SqlState} {n : String} {ts sid : Nat} {v : String}
    (h : insert_scalar db n ts sid v = Except.ok db2) :
    db2 = { db with scalarRows := db.scalarRows ++
      [{ table := n, series_id := sid, timestamp := ts, value := v }] } := by
  unfold insert_scalar at h
  split at h
  · split at h
    · exact absurd h (by simp)
    · simpa using h.symm
  · exact absurd h (by simp)

theorem insert_scalar_step (w : TableWriter) (n : String) (ts sid : Nat) (v : String)
    {db2 : SqlState} (hInv : WriterInv w) (h : insert_scalar w.db n ts sid v = Except.ok db2) :
    StepOk w { w with db := db2 } := by
  have hdb2 := insert_scalar_ok_inv h
  subst hdb2
  refine ⟨⟨hInv.metric_nodup, hInv.metric_cache_ok, hInv.tables_have_rows,
    hInv.label_cache_ok, hInv.lv_cache_ok, hInv.series_lt, hInv.label_set_lt, ?_⟩,
    ?_, rfl, rfl⟩
  · intro p hp
    rw [seriesQuery_congr p.1.1 p.1.2 rfl rfl]
    exact hInv.series_cache_ok p hp
  · exact ⟨⟨[], by simp⟩, ⟨[], by simp⟩, ⟨[], by simp⟩, ⟨[], by simp, by simp⟩,
      ⟨[], by simp, by simp⟩, ⟨[], by simp⟩,
      ⟨[{ table := n, series_id := sid, timestamp := ts, value := v }], rfl⟩, le_refl _⟩

theorem processSamples_step (n : String) (ty : SampleType) (ts mid : Nat) :
    ∀ (samples : List Sample) (w : TableWriter), WriterInv w →
      StepOk w (processSamples w n ty ts mid samples).2 := by
  intro samples
  induction samples with
  | nil => intro w hInv; exact StepOk_refl hInv
  | cons smp rest ih =>
    intro w hInv
    obtain ⟨hstepS, _⟩ := get_series_id_cached_spec w mid smp.labels hInv
    unfold processSamples
    dsimp only
    by_cases hscalar : ty.isScalar
    · rw [if_pos hscalar]
      by_cases hparse : parsesAsF64 smp.value
      · rw [if_pos hparse]
        rcases hins : insert_scalar (get_series_id_cached w mid smp.labels).2.db n ts
            (get_series_id_cached w mid smp.labels).1 smp.value with e | db2
        · exact StepOk_trans hstepS
            (StepOk_log (get_series_id_cached w mid smp.labels).2 _ hstepS.inv)
        · have hstepI := insert_scalar_step (get_series_id_cached w mid smp.labels).2 n ts
            (get_series_id_cached w mid smp.labels).1 smp.value hstepS.inv hins
          exact StepOk_trans hstepS (StepOk_trans hstepI (ih _ hstepI.inv))
      · rw [if_neg hparse]
        exact StepOk_trans hstepS
          (StepOk_log (get_series_id_cached w mid smp.labels).2 _ hstepS.inv)
    · rw [if_neg hscalar]
      exact StepOk_trans hstepS (ih _ hstepS.inv)

theorem process_metric_family_step {w : TableWriter} {ts : Nat} {fam : MetricFamily}
    {b : Bool} {w' : TableWriter} (hInv : WriterInv w)
    (h : process_metric_family w ts fam = some (b, w')) : StepOk w w' := by
  unfold process_metric_family at h
  rcases hvar : fam.var with _ | name <;> rw [hvar] at h
  · exact absurd h (by simp)
  · dsimp only at h
    have hstepM := get_metric_id_cached_spec w name fam.type fam.help hInv
    split at h
    next e w1 heq =>
      have hw1 : w1 = (get_metric_id_cached w name fam.type fam.help).2 := by rw [heq]
      have h2 := Option.some.inj h
      have hw' : w' = { w1 with log := w1.log ++ [LogEvent.unableLookupMetric] } :=
        (congrArg Prod.snd h2).symm
      rw [hw', hw1]
      exact StepOk_trans hstepM
        (StepOk_log (get_metric_id_cached w name fam.type fam.help).2 _ hstepM.inv)
    next mid w1 heq =>
      have hw1 : w1 = (get_metric_id_cached w name fam.type fam.help).2 := by rw [heq]
      have h2 := Option.some.inj h
      have hw' : w' = (processSamples w1 name fam.type ts mid fam.samples).2 :=
        (congrArg Prod.snd h2).symm
      rw [hw', hw1]
      exact StepOk_trans hstepM
        (processSamples_step name fam.type ts mid fam.samples _ hstepM.inv)

theorem restart_step (w : TableWriter) (hInv : WriterInv w) :
    StepOk w (applyOp w Op.restart) := by
  refine ⟨⟨hInv.metric_nodup, ?_, hInv.tables_have_rows, ?_, ?_, hInv.series_lt,
    hInv.label_set_lt, ?_⟩, DbExtends_refl w.db, rfl, rfl⟩ <;>
    intro p hp <;> exact absurd hp (List.not_mem_nil p)

theorem applyOp_step (w : TableWriter) (op : Op) (hInv : WriterInv w) :
    StepOk w (applyOp w op) := by
  cases op with
  | scrape ts f =>
    show StepOk w (match process_metric_family w ts f with
      | some r => r.2
      | none => w)
    split
    next r heq =>
      rcases r with ⟨b, w'⟩
      exact process_metric_family_step hInv heq
    next heq => exact StepOk_refl hInv
  | restart => exact restart_step w hInv

theorem runOps_step (ops : List Op) (w : TableWriter) (hInv : WriterInv w) :
    StepOk w (runOps w ops) := by
  induction ops generalizing w with
  | nil => exact StepOk_refl hInv
  | cons op rest ih =>
    have h1 := applyOp_step w op hInv
    have h2 := ih (applyOp w op) h1.inv
    exact StepOk_trans h1 h2

theorem freshWriter_inv : WriterInv freshWriter := by
  refine ⟨List.Pairwise.nil, ?_, ?_, ?_, ?_, ?_, ?_, ?_⟩ <;>
    intro p hp <;> exact absurd hp (List.not_mem_nil p)

/-! ### C3 — series identity assignment -/

/-- C3 (counterexample): from a fresh normalizer, the label set
`{a=1, b=2}` of metric 1 is assigned series id 1; the strictly smaller
label set `{a=1}` — a different label set — is then assigned the same
series id 1, because the INTERSECT lookup matches any series whose label
set is a superset of the requested one (the source comments this `BUG`). -/
theorem series_subset_assigned_same_id :
    (get_series_id_cached freshWriter 1 [("a", "1"), ("b", "2")]).1 = 1 ∧
    (get_series_id_cached (get_series_id_cached freshWriter 1 [("a", "1"), ("b", "2")]).2
        1 [("a", "1")]).1 = 1 ∧
    ([(("a" : String), ("1" : String))] : List (String × String)) ≠
      [("a", "1"), ("b", "2")] := by
  decide

/-- C3 (amended): for a given metric, identical label sets are assigned
the same `series_id` regardless of the order in which label sets are first
seen and regardless of cache state (including across restarts): once a
lookup from an invariant state returns `i`, every later lookup of the same
label sequence after any run of scrapes and restarts still returns `i`.
Distinctness of differing label sets does not hold: a label set whose
interned ids form a subset of an existing series' set is assigned that
existing series' id. -/
theorem series_id_assignment (w : TableWriter) (hInv : WriterInv w) (m : Nat)
    (ls : List (String × String)) (i : Nat) (w₁ : TableWriter)
    (h1 : get_series_id_cached w m ls = (i, w₁)) (ops : List Op) :
    (get_series_id_cached (runOps w₁ ops) m ls).1 = i := by
  obtain ⟨hstep1, hans1⟩ := get_series_id_cached_spec w m ls hInv
  rw [h1] at hstep1 hans1
  dsimp only at hstep1 hans1
  have hrun := runOps_step ops w₁ hstep1.inv
  have hans2 := seriesAnswer_extends hstep1.inv hrun.ext hrun.inst_eq hrun.job_eq hans1
  exact get_series_id_cached_answered hrun.inv hans2

/-- C3 (witness): the first lookup of `{a=1}` returns 1, and the same
lookup after a restart still returns 1. -/
theorem series_id_assignment_witness :
    (get_series_id_cached
      (runOps (get_series_id_cached freshWriter 1 [("a", "1")]).2 [Op.restart])
      1 [("a", "1")]).1 = 1 := by
  exact series_id_assignment freshWriter freshWriter_inv 1 [("a", "1")] 1
    (get_series_id_cached freshWriter 1 [("a", "1")]).2 (by decide) [Op.restart]

/-! ### C4 — metric interning idempotence -/

/-- C4: starting from a fresh normalizer, after any sequence of per-family
writes and restarts the `metric` table holds at most one row named `N`;
when a row named `N` exists, `get_metric_id_cached` (cache hit or
SELECT-by-name) returns that row's id and leaves the database unchanged;
when no row exists, the first sight inserts exactly one row named `N`. -/
theorem metric_interning_idempotent (ops : List Op) (N : String) (ty : SampleType)
    (help : Option String) :
    ((runOps freshWriter ops).db.metric.countP (fun r => r.name == N) ≤ 1) ∧
    (∀ r, selectMetricByName (runOps freshWriter ops).db N = some r →
      (get_metric_id_cached (runOps freshWriter ops) N ty help).1 = Except.ok r.id ∧
      (get_metric_id_cached (runOps freshWriter ops) N ty help).2.db =
        (runOps freshWriter ops).db) ∧
    (selectMetricByName (runOps freshWriter ops).db N = none →
      (get_metric_id_cached (runOps freshWriter ops) N ty help).1 =
        Except.ok (runOps freshWriter ops).db.nextMetricId ∧
      (get_metric_id_cached (runOps freshWriter ops) N ty help).2.db.metric =
        (runOps freshWriter ops).db.metric ++
          [{ id := (runOps freshWriter ops).db.nextMetricId, name := N,
             mtype := sampleTypeText ty, help := help }]) := by
  have hrun := runOps_step ops freshWriter freshWriter_inv
  refine ⟨countP_le_one_of_name_pairwise hrun.inv.metric_nodup N, ?_, ?_⟩
  · intro r hr
    exact get_metric_id_cached_found ty help hrun.inv hr
  · intro hnone
    exact get_metric_id_cached_inserts ty help hrun.inv hnone

/-- C4 (witness): two scrapes of the same counter family with a restart in
between leave at most one `metric` row named `a`, and the lookup returns
its id 1. -/
theorem metric_interning_idempotent_witness :
    ((runOps freshWriter
        [Op.scrape 5 famCounterA, Op.restart, Op.scrape 6 famCounterA]).db.metric.countP
      (fun r => r.name == "a") ≤ 1) ∧
    (get_metric_id_cached
        (runOps freshWriter [Op.scrape 5 famCounterA, Op.restart, Op.scrape 6 famCounterA])
        "a" SampleType.counter none).1 = Except.ok 1 := by
  have h := metric_interning_idempotent
    [Op.scrape 5 famCounterA, Op.restart, Op.scrape 6 famCounterA] "a"
    SampleType.counter none
  refine ⟨h.1, ?_⟩
  have h2 := h.2.1 { id := 1, name := "a", mtype := "counter", help := none } (by decide)
  simpa using h2.1

/-! ### C5 — scalar value-parse failure keeps earlier inserts -/

theorem insert_scalar_frame {db db2 : SqlState} {n : String} {ts sid : Nat} {v : String}
    (h : insert_scalar db n ts sid v = Except.ok db2) :
    db2.metric = db.metric := by
  rw [insert_scalar_ok_inv h]

theorem processSamples_cons_err (w : TableWriter) (name : String) (ty : SampleType)
    (ts mid : Nat) (s : Sample) (L : List Sample) (hty : ty.isScalar = true)
    (hparse : parsesAsF64 s.value = true) {e : Unit}
    (hins : insert_scalar (get_series_id_cached w mid s.labels).2.db name ts
      (get_series_id_cached w mid s.labels).1 s.value = Except.error e) :
    processSamples w name ty ts mid (s :: L) =
      (false, { (get_series_id_cached w mid s.labels).2 with
        log := (get_series_id_cached w mid s.labels).2.log ++
          [LogEvent.unableInsertSample] }) := by
  conv =>
    left
    rw [processSamples]
  dsimp only
  rw [if_pos hty, if_pos hparse, hins]

theorem processSamples_cons_nonscalar (w : TableWriter) (name : String)
    (ty : SampleType) (ts mid : Nat) (s : Sample) (L : List Sample)
    (hty : ty.isScalar = false) :
    processSamples w name ty ts mid (s :: L) =
      processSamples (get_series_id_cached w mid s.labels).2 name ty ts mid L := by
  conv =>
    left
    rw [processSamples]
  dsimp only
  rw [if_neg (by rw [hty]; exact Bool.false_ne_true)]

theorem processSamples_cons_ins (w : TableWriter) (name : String) (ty : SampleType)
    (ts mid : Nat) (s : Sample) (L : List Sample) (hty : ty.isScalar = true)
    (hparse : parsesAsF64 s.value = true) {db2 : SqlState}
    (hins : insert_scalar (get_series_id_cached w mid s.labels).2.db name ts
      (get_series_id_cached w mid s.labels).1 s.value = Except.ok db2) :
    processSamples w name ty ts mid (s :: L) =
      processSamples { (get_series_id_cached w mid s.labels).2 with db := db2 }
        name ty ts mid L := by
  conv =>
    left
    rw [processSamples]
  dsimp only
  rw [if_pos hty, if_pos hparse, hins]

theorem processSamples_cons_bad (w : TableWriter) (name : String) (ty : SampleType)
    (ts mid : Nat) (bad : Sample) (L : List Sample) (hty : ty.isScalar = true)
    (hbad : parsesAsF64 bad.value = false) :
    processSamples w name ty ts mid (bad :: L) =
      (false, { (get_series_id_cached w mid bad.labels).2 with
        log := (get_series_id_cached w mid bad.labels).2.log ++
          [LogEvent.unableParseScalar bad.value] }) := by
  conv =>
    left
    rw [processSamples]
  dsimp only
  rw [if_pos hty, if_neg (by rw [hbad]; exact Bool.false_ne_true)]

theorem processSamples_partial (name : String) (ty : SampleType) (ts mid : Nat)
    (hty : ty.isScalar = true) :
    ∀ (pre : List Sample) (w : TableWriter) (bad : Sample) (rest : List Sample),
      (∀ s ∈ pre, parsesAsF64 s.value = true) →
      parsesAsF64 bad.value = false →
      (processSamples w name ty ts mid (pre ++ bad :: rest)).1 = false ∧
      (∃ t, (processSamples w name ty ts mid (pre ++ bad :: rest)).2.db.scalarRows =
          w.db.scalarRows ++ t ∧
        (∃ vs, t.map ValueRow.value ++ vs = pre.map Sample.value) ∧
        (∀ r ∈ t, r.table = name ∧ r.timestamp = ts)) := by
  intro pre
  induction pre with
  | nil =>
    intro w bad rest hpre hbad
    obtain ⟨_, _, _, hrows, _, _, _⟩ := get_series_id_cached_frame w mid bad.labels
    rw [List.nil_append, processSamples_cons_bad w name ty ts mid bad rest hty hbad]
    refine ⟨rfl, ⟨[], ?_, ⟨[], rfl⟩, by simp⟩⟩
    show (get_series_id_cached w mid bad.labels).2.db.scalarRows = w.db.scalarRows ++ []
    rw [hrows, List.append_nil]
  | cons s pre ih =>
    intro w bad rest hpre hbad
    obtain ⟨_, _, _, hrows, _, _, _⟩ := get_series_id_cached_frame w mid s.labels
    have hparse : parsesAsF64 s.value = true := hpre s (List.mem_cons_self s pre)
    have hpre2 : ∀ x ∈ pre, parsesAsF64 x.value = true :=
      fun x hx => hpre x (List.mem_cons_of_mem s hx)
    rcases hins : insert_scalar (get_series_id_cached w mid s.labels).2.db name ts
        (get_series_id_cached w mid s.labels).1 s.value with e | db2
    · rw [List.cons_append, processSamples_cons_err w name ty ts mid s
        (pre ++ bad :: rest) hty hparse hins]
      refine ⟨rfl, ⟨[], ?_, ⟨s.value :: pre.map Sample.value, rfl⟩, by simp⟩⟩
      show (get_series_id_cached w mid s.labels).2.db.scalarRows = w.db.scalarRows ++ []
      rw [hrows, List.append_nil]
    · rw [List.cons_append, processSamples_cons_ins w name ty ts mid s
        (pre ++ bad :: rest) hty hparse hins]
      have hdb2 := insert_scalar_ok_inv hins
      obtain ⟨hres, ⟨t, hrowseq, ⟨vs, hmap⟩, hattr⟩⟩ := ih
        { (get_series_id_cached w mid s.labels).2 with db := db2 } bad rest hpre2 hbad
      refine ⟨hres,
        ⟨{ table := name, series_id := (get_series_id_cached w mid s.labels).1,
           timestamp := ts, value := s.value } :: t, ?_, ⟨vs, ?_⟩, ?_⟩⟩
      · rw [hrowseq]
        show db2.scalarRows ++ t = _
        rw [hdb2]
        show (get_series_id_cached w mid s.labels).2.db.scalarRows ++ _ ++ t = _
        rw [hrows]
        simp
      · simp [hmap]
      · intro r hr
        rcases List.mem_cons.mp hr with hrw | hrt
        · rw [hrw]
          exact ⟨rfl, rfl⟩
        · exact hattr r hrt

theorem get_metric_id_rows (w : TableWriter) (n : String) (ty : SampleType)
    (help : Option String) :
    (get_metric_id w n ty help).2.db.scalarRows = w.db.scalarRows := by
  unfold get_metric_id
  split
  next row hrow => rfl
  next hnone =>
    dsimp only
    by_cases hscalar : ty.isScalar
    · rw [if_pos hscalar]
      rcases hcr : create_scalar (insertMetric w n ty help).db n with e | db2
      · rfl
      · have hdb2 := create_scalar_ok_inv hcr
        show db2.scalarRows = w.db.scalarRows
        rw [hdb2]
        rfl
    · rw [if_neg hscalar]
      rfl

theorem get_metric_id_cached_rows (w : TableWriter) (n : String) (ty : SampleType)
    (help : Option String) :
    (get_metric_id_cached w n ty help).2.db.scalarRows = w.db.scalarRows := by
  unfold get_metric_id_cached
  split
  next id hlook => rfl
  next hlook =>
    split
    next id w1 heq =>
      have h := get_metric_id_rows w n ty help
      rw [heq] at h
      exact h
    next e w1 heq =>
      have h := get_metric_id_rows w n ty help
      rw [heq] at h
      exact h

/-- C5: for a scalar family whose samples split as `pre ++ bad :: rest`
with every value in `pre` parsing as `f64` and `bad.value` failing to
parse, `process_metric_family` returns `false` from any writer state, and
nothing is rolled back: the value tables keep every old row plus exactly
the rows whose inserts succeeded before the failure — in order, an
initial segment of the `pre` values, each under the family's table name
and the scrape timestamp.  (An insert can stop the family early by
violating the value table's `PRIMARY KEY (series_id, timestamp)`,
table.rs:333-336; the inserted prefix is kept in that case too.) -/
theorem scalar_family_partial_failure (w : TableWriter) (ts : Nat) (fam : MetricFamily)
    (name : String) (pre : List Sample) (bad : Sample) (rest : List Sample)
    (hvar : fam.var = some name) (hty : fam.type.isScalar = true)
    (hsplit : fam.samples = pre ++ bad :: rest)
    (hpre : ∀ s ∈ pre, parsesAsF64 s.value = true)
    (hbad : parsesAsF64 bad.value = false) :
    ∃ w', process_metric_family w ts fam = some (false, w') ∧
      ∃ t, w'.db.scalarRows = w.db.scalarRows ++ t ∧
        (∃ vs, t.map ValueRow.value ++ vs = pre.map Sample.value) ∧
        (∀ r ∈ t, r.table = name ∧ r.timestamp = ts) := by
  unfold process_metric_family
  rw [hvar]
  dsimp only
  rcases hmc : get_metric_id_cached w name fam.type fam.help with ⟨res, w1⟩
  have hw1rows : w1.db.scalarRows = w.db.scalarRows := by
    have := get_metric_id_cached_rows w name fam.type fam.help
    rw [hmc] at this
    exact this
  rcases res with e | mid
  · refine ⟨{ w1 with log := w1.log ++ [LogEvent.unableLookupMetric] }, rfl,
      [], ?_, ⟨pre.map Sample.value, rfl⟩, by simp⟩
    show w1.db.scalarRows = w.db.scalarRows ++ []
    rw [hw1rows, List.append_nil]
  · obtain ⟨hres, ⟨t, hrowseq, hprefix, hattr⟩⟩ :=
      processSamples_partial name fam.type ts mid hty pre w1 bad rest hpre hbad
    refine ⟨(processSamples w1 name fam.type ts mid (pre ++ bad :: rest)).2, ?_,
      t, ?_, hprefix, hattr⟩
    · rw [hsplit]
      dsimp only
      exact congrArg some (Prod.ext hres rfl)
    · rw [hrowseq, hw1rows]

/-- C5 (witness): the family of `b` with values `1`, `abc`, `3` processed
from a fresh writer returns `false`, with the row for the first sample
inserted and kept. -/
theorem scalar_family_partial_failure_witness :
    (process_metric_family freshWriter 7 famBadB).map Prod.fst = some false ∧
    (process_metric_family freshWriter 7 famBadB).map
        (fun p => p.2.db.scalarRows.map ValueRow.value) = some ["1"] := by
  obtain ⟨w', h1, _⟩ := scalar_family_partial_failure freshWriter 7 famBadB "b"
    [{ var := "b", labels := [], value := "1" }]
    { var := "b", labels := [], value := "abc" }
    [{ var := "b", labels := [], value := "3" }]
    (by decide) (by decide) (by decide) (by decide) (by decide)
  constructor
  · rw [h1]
    rfl
  · decide

theorem processSamples_metric_log (name : String) (ty : SampleType) (ts mid : Nat) :
    ∀ (samples : List Sample) (w : TableWriter),
      (processSamples w name ty ts mid samples).2.db.metric = w.db.metric ∧
      ∃ t, (processSamples w name ty ts mid samples).2.log = w.log ++ t := by
  intro samples
  induction samples with
  | nil => intro w; exact ⟨rfl, [], by simp [processSamples]⟩
  | cons smp rest ih =>
    intro w
    obtain ⟨hmet, _, _, _, hlog, _, _⟩ := get_series_id_cached_frame w mid smp.labels
    by_cases hscalar : ty.isScalar
    · by_cases hparse : parsesAsF64 smp.value
      · rcases hins : insert_scalar (get_series_id_cached w mid smp.labels).2.db name ts
            (get_series_id_cached w mid smp.labels).1 smp.value with e | db2
        · rw [processSamples_cons_err w name ty ts mid smp rest hscalar hparse hins]
          exact ⟨hmet, [LogEvent.unableInsertSample], by rw [← hlog]⟩
        · rw [processSamples_cons_ins w name ty ts mid smp rest hscalar hparse hins]
          have hmet2 := insert_scalar_frame hins
          obtain ⟨hmet3, t, hlog3⟩ := ih
            { (get_series_id_cached w mid smp.labels).2 with db := db2 }
          refine ⟨?_, t, ?_⟩
          · rw [hmet3]
            show db2.metric = w.db.metric
            rw [hmet2, hmet]
          · rw [hlog3]
            show (get_series_id_cached w mid smp.labels).2.log ++ t = w.log ++ t
            rw [hlog]
      · rw [processSamples_cons_bad w name ty ts mid smp rest hscalar
          (by revert hparse; cases parsesAsF64 smp.value <;> simp)]
        exact ⟨hmet, [LogEvent.unableParseScalar smp.value], by rw [← hlog]⟩
    · rw [processSamples_cons_nonscalar w name ty ts mid smp rest
        (by revert hscalar; cases ty.isScalar <;> simp)]
      obtain ⟨hmet3, t, hlog3⟩ := ih (get_series_id_cached w mid smp.labels).2
      exact ⟨hmet3.trans hmet, t, by rw [hlog3, hlog]⟩

/-- C7 (counterexample): after the counter family of `a` is interned, a
second scrape re-declares `a` as a gauge.  The existing row keeps type
`counter` (and its help) as the claim says — but no warning is logged at
all: the new log is empty, and `get_metric_id`/`get_metric_id_cached`
never compare the stored type with the re-declared one. -/
theorem metric_redeclare_no_warning :
    (process_metric_family (runOps freshWriter [Op.scrape 5 famCounterA]) 6 famGaugeA).map
        (fun r => (r.1, r.2.db.metric, r.2.log)) =
      some (true, [{ id := 1, name := "a", mtype := "counter", help := none }], []) := by
  decide

/-- C7 (amended): when a family re-declares an already-interned metric
name with any (possibly different) TYPE, processing leaves every `metric`
row unchanged — the stored type and help are not updated — and no warning
is logged: every log entry the processing can append carries the error
level, and the metric lookup itself appends nothing. -/
theorem metric_redeclare_row_unchanged (w : TableWriter) (ts : Nat) (fam : MetricFamily)
    (name : String) (r : MetricRow) (hvar : fam.var = some name)
    (hrow : selectMetricByName w.db name = some r) :
    ∃ b w', process_metric_family w ts fam = some (b, w') ∧
      w'.db.metric = w.db.metric ∧
      (∃ t, w'.log = w.log ++ t ∧ ∀ e ∈ t, e.level = LogLevel.error) := by
  have hmetlook : (get_metric_id_cached w name fam.type fam.help).2.db.metric = w.db.metric ∧
      (get_metric_id_cached w name fam.type fam.help).2.log = w.log ∧
      ∃ mid, (get_metric_id_cached w name fam.type fam.help).1 = Except.ok mid := by
    unfold get_metric_id_cached
    split
    next id hlook => exact ⟨rfl, rfl, id, rfl⟩
    next hlook =>
      have hget : get_metric_id w name fam.type fam.help = (Except.ok r.id, w) := by
        unfold get_metric_id
        rw [hrow]
      rw [hget]
      exact ⟨rfl, rfl, r.id, rfl⟩
  obtain ⟨hmet, hlog, mid, hok⟩ := hmetlook
  unfold process_metric_family
  rw [hvar]
  dsimp only
  rcases hmc : get_metric_id_cached w name fam.type fam.help with ⟨res, w1⟩
  have hres2 : res = Except.ok mid := by
    rw [hmc] at hok
    exact hok
  rw [hres2]
  dsimp only
  have hw1 : w1 = (get_metric_id_cached w name fam.type fam.help).2 := by rw [hmc]
  obtain ⟨hmet3, t, hlog3⟩ := processSamples_metric_log name fam.type ts mid fam.samples w1
  refine ⟨(processSamples w1 name fam.type ts mid fam.samples).1,
    (processSamples w1 name fam.type ts mid fam.samples).2, rfl, ?_, t, ?_, ?_⟩
  · rw [hmet3, hw1, hmet]
  · rw [hlog3, hw1, hlog]
  · intro e he
    rfl

/-- C7 (witness): re-declaring the counter `a` as a gauge leaves the
metric table unchanged. -/
theorem metric_redeclare_row_unchanged_witness :
    (process_metric_family (runOps freshWriter [Op.scrape 5 famCounterA]) 6 famGaugeA).map
        (fun p => p.2.db.metric) =
      some (runOps freshWriter [Op.scrape 5 famCounterA]).db.metric := by
  obtain ⟨b, w', h1, hmet, _⟩ := metric_redeclare_row_unchanged
    (runOps freshWriter [Op.scrape 5 famCounterA]) 6 famGaugeA "a"
    { id := 1, name := "a", mtype := "counter", help := none } (by decide) (by decide)
  rw [h1]
  simp [hmet]

end PromConvert
